import Mathlib

/-! ELF header reporter (`0x15-file_io/100-elf_header.c`)

A shallow embedding of the C program that reads the fixed ELF header of a file and
prints its identification fields, object type and entry point.

* Byte buffers (`unsigned char *`) are lists of naturals; a byte is a natural `< 256`.
* `unsigned int` / `unsigned long` values are naturals, reduced `% 2 ^ 32` / `% 2 ^ 64`
  wherever the C code can overflow or truncate.
* `printf` / `dprintf` calls become string concatenation; the conversions `%x`, `%02x`,
  `%d`, `%#x`, `%#lx` are modelled after the C standard (section "Formatted output").
* `exit(98)` inside a helper becomes an `Except` error carrying the diagnostic text and
  the status.
* `main` is a function from the outcomes of the system calls (`World`) to what the
  process wrote and how it ended (`Run`).
* The header structure `Elf64_Ehdr` is read from the buffer with the layout of an LP64
  little-endian host: `e_ident` at offset 0, `e_type` at offset 16, `e_entry` at offset 24.
-/

namespace ElfHeader

/-! ## Constants of `<elf.h>` -/

def EI_NIDENT : Nat := 16
def EI_CLASS : Nat := 4
def EI_DATA : Nat := 5
def EI_VERSION : Nat := 6
def EI_OSABI : Nat := 7
def EI_ABIVERSION : Nat := 8

def ELFCLASSNONE : Nat := 0
def ELFCLASS32 : Nat := 1
def ELFCLASS64 : Nat := 2

def ELFDATANONE : Nat := 0
def ELFDATA2LSB : Nat := 1
def ELFDATA2MSB : Nat := 2

def EV_CURRENT : Nat := 1

def ELFOSABI_NONE : Nat := 0
def ELFOSABI_HPUX : Nat := 1
def ELFOSABI_NETBSD : Nat := 2
def ELFOSABI_LINUX : Nat := 3
def ELFOSABI_SOLARIS : Nat := 6
def ELFOSABI_IRIX : Nat := 8
def ELFOSABI_FREEBSD : Nat := 9
def ELFOSABI_TRU64 : Nat := 10
def ELFOSABI_ARM : Nat := 97
def ELFOSABI_STANDALONE : Nat := 255

def ET_NONE : Nat := 0
def ET_REL : Nat := 1
def ET_EXEC : Nat := 2
def ET_DYN : Nat := 3
def ET_CORE : Nat := 4

/-- Size in bytes of `Elf64_Ehdr`. -/
def EHDR_SIZE : Nat := 64

/-! ## The `printf` conversions used by the program -/

/-- Digits of `n` in base `base`, most significant first, pushed in front of `acc`.
The first argument is fuel; `n + 1` is always enough. -/
def digitsCore (base : Nat) : Nat → Nat → List Char → List Char
  | 0, _, acc => acc
  | fuel + 1, n, acc =>
    if n < base then Nat.digitChar n :: acc
    else digitsCore base fuel (n / base) (Nat.digitChar (n % base) :: acc)

/-- Numeral of `n` in base `base`, lowercase, without padding. -/
def digits (base n : Nat) : List Char := digitsCore base (n + 1) n []

/-- Conversion `%x`: lowercase hexadecimal, no padding. -/
def fmt_x (n : Nat) : String := String.mk (digits 16 n)

/-- Conversion `%d` on a non-negative value. -/
def fmt_d (n : Nat) : String := String.mk (digits 10 n)

/-- Conversion `%02x`: lowercase hexadecimal, padded with zeros to width 2. -/
def fmt_02x (n : Nat) : String :=
  String.mk (List.replicate (2 - (digits 16 n).length) '0' ++ digits 16 n)

/-- Conversions `%#x` and `%#lx`: the alternative form puts `0x` in front of a
nonzero result only. -/
def fmt_hash_x (n : Nat) : String := if n = 0 then "0" else "0x" ++ fmt_x n

/-! ## Reading hexadecimal numerals back (used to state what a printed number is) -/

/-- Value of a lowercase hexadecimal digit. -/
def hexCharVal (c : Char) : Option Nat :=
  if 48 ≤ c.toNat ∧ c.toNat ≤ 57 then some (c.toNat - 48)
  else if 97 ≤ c.toNat ∧ c.toNat ≤ 102 then some (c.toNat - 87)
  else none

/-- Value of a string of lowercase hexadecimal digits; `none` when a character is
not one of `0-9a-f`. -/
def parseHex (cs : List Char) : Option Nat :=
  cs.foldl (fun acc c => acc.bind (fun a => (hexCharVal c).map (fun d => 16 * a + d))) (some 0)

/-- The string `s` is the lowercase hexadecimal numeral of `n` without padding: it is
not empty, all its characters are in `0-9a-f`, it reads back as `n`, and it starts
with `0` only when it is the single digit `0`. -/
def IsLowerHex (s : String) (n : Nat) : Prop :=
  s.data ≠ [] ∧ parseHex s.data = some n ∧ (s.data.head? = some '0' → s.data = ['0'])

instance (s : String) (n : Nat) : Decidable (IsLowerHex s n) :=
  inferInstanceAs (Decidable
    (s.data ≠ [] ∧ parseHex s.data = some n ∧ (s.data.head? = some '0' → s.data = ['0'])))

/-- Two-character lowercase hexadecimal token of a byte. -/
def byteToken (b : Nat) : String := String.mk [Nat.digitChar (b / 16), Nat.digitChar (b % 16)]

/-- Number of newline characters of a string. -/
def newlines (s : String) : Nat := s.data.count '\n'

/-- A string is one output line: its only newline is its last character. -/
def IsLine (s : String) : Prop :=
  newlines s = 1 ∧ s.data.getLast? = some '\n'

instance (s : String) : Decidable (IsLine s) :=
  inferInstanceAs (Decidable (newlines s = 1 ∧ s.data.getLast? = some '\n'))

/-! ## The program -/

/-- Byte `e_i[i]` of a buffer. -/
def byteAt (e_i : List Nat) (i : Nat) : Nat := e_i.getD i 0

/-- Fatal termination through `exit`: the text written to the error stream and the
exit status. -/
structure Fatal where
  err : String
  code : Nat
deriving DecidableEq, Repr

/-- Loop of `check_elf`, with `k` iterations left, at position `index`. -/
def check_elf_loop (e_i : List Nat) : Nat → Nat → Except Fatal Unit
  | 0, _ => .ok ()
  | k + 1, index =>
    if byteAt e_i index ≠ 127 ∧ byteAt e_i index ≠ 69 ∧
        byteAt e_i index ≠ 76 ∧ byteAt e_i index ≠ 70 then
      .error ⟨"Error: Not an ELF file\n", 98⟩
    else check_elf_loop e_i k (index + 1)

/-- Function `check_elf`: `for (index = 0; index < 4; index++)`. -/
def check_elf (e_i : List Nat) : Except Fatal Unit := check_elf_loop e_i 4 0

/-- Loop of `print_magic`, with `k` iterations left, at position `index`. -/
def print_magic_loop (e_i : List Nat) : Nat → Nat → String
  | 0, _ => ""
  | k + 1, index =>
    fmt_02x (byteAt e_i index) ++ (if index = EI_NIDENT - 1 then "\n" else " ")
      ++ print_magic_loop e_i k (index + 1)

/-- Function `print_magic`. -/
def print_magic (e_i : List Nat) : String := " Magic: " ++ print_magic_loop e_i EI_NIDENT 0

/-- Function `print_class`. -/
def print_class (e_i : List Nat) : String :=
  " Class: " ++
    (if byteAt e_i EI_CLASS = ELFCLASSNONE then "none\n"
     else if byteAt e_i EI_CLASS = ELFCLASS32 then "ELF32\n"
     else if byteAt e_i EI_CLASS = ELFCLASS64 then "ELF64\n"
     else "<unknown: " ++ fmt_x (byteAt e_i EI_CLASS) ++ ">\n")

/-- Function `print_data`. -/
def print_data (e_i : List Nat) : String :=
  " Data: " ++
    (if byteAt e_i EI_DATA = ELFDATANONE then "none\n"
     else if byteAt e_i EI_DATA = ELFDATA2LSB then "2's complement, little endian\n"
     else if byteAt e_i EI_DATA = ELFDATA2MSB then "2's complement, big endian\n"
     else "<unknown: " ++ fmt_x (byteAt e_i EI_CLASS) ++ ">\n")

/-- Function `print_version`. -/
def print_version (e_i : List Nat) : String :=
  " Version: " ++ fmt_d (byteAt e_i EI_VERSION) ++
    (if byteAt e_i EI_VERSION = EV_CURRENT then " (current)\n" else "\n")

/-- Function `print_osabi`. -/
def print_osabi (e_i : List Nat) : String :=
  " OS/ABI: " ++
    (if byteAt e_i EI_OSABI = ELFOSABI_NONE then "UNIX - System V\n"
     else if byteAt e_i EI_OSABI = ELFOSABI_HPUX then "UNIX - HP-UX\n"
     else if byteAt e_i EI_OSABI = ELFOSABI_NETBSD then "UNIX - NetBSD\n"
     else if byteAt e_i EI_OSABI = ELFOSABI_LINUX then "UNIX - Linux\n"
     else if byteAt e_i EI_OSABI = ELFOSABI_SOLARIS then "UNIX - Solaris\n"
     else if byteAt e_i EI_OSABI = ELFOSABI_IRIX then "UNIX - IRIX\n"
     else if byteAt e_i EI_OSABI = ELFOSABI_FREEBSD then "UNIX - FreeBSD\n"
     else if byteAt e_i EI_OSABI = ELFOSABI_TRU64 then "UNIX - TRU64\n"
     else if byteAt e_i EI_OSABI = ELFOSABI_ARM then "ARM\n"
     else if byteAt e_i EI_OSABI = ELFOSABI_STANDALONE then "Standalone App\n"
     else "<unknown: " ++ fmt_x (byteAt e_i EI_OSABI) ++ ">\n")

/-- Function `print_abi`. -/
def print_abi (e_i : List Nat) : String :=
  " ABI Version: " ++ fmt_d (byteAt e_i EI_ABIVERSION) ++ "\n"

/-- Value of `e_t` at the `switch` of `print_type`: `e_t >>= 8` when the data encoding
is big-endian. -/
def type_value (e_t : Nat) (e_i : List Nat) : Nat :=
  if byteAt e_i EI_DATA = ELFDATA2MSB then e_t >>> 8 else e_t

/-- Function `print_type`; `e_t` is an `unsigned int`. -/
def print_type (e_t : Nat) (e_i : List Nat) : String :=
  " Type: " ++
    (if type_value e_t e_i = ET_NONE then "NONE (None)\n"
     else if type_value e_t e_i = ET_REL then "REL (Relocatable file)\n"
     else if type_value e_t e_i = ET_EXEC then "EXEC (Executable file)\n"
     else if type_value e_t e_i = ET_DYN then "DYN (Shared object file)\n"
     else if type_value e_t e_i = ET_CORE then "CORE (Core file)\n"
     else "<unknown: " ++ fmt_x (type_value e_t e_i) ++ ">\n")

/-- First assignment of the big-endian branch of `print_entry`:
`((e_e << 8) & 0xFF00FF00) | ((e_e >> 8) & 0xFF00FF)` on an `unsigned long`. -/
def swap_lanes (e_e : Nat) : Nat :=
  (((e_e <<< 8) % 2 ^ 64) &&& 0xFF00FF00) ||| ((e_e >>> 8) &&& 0xFF00FF)

/-- Second assignment of the big-endian branch of `print_entry`:
`(e_e << 16) | (e_e >> 16)` on an `unsigned long`. -/
def swap_halves (e_e : Nat) : Nat :=
  ((e_e <<< 16) % 2 ^ 64) ||| (e_e >>> 16)

/-- Value of `e_e` after the big-endian branch of `print_entry`. -/
def entry_value (e_e : Nat) (e_i : List Nat) : Nat :=
  if byteAt e_i EI_DATA = ELFDATA2MSB then swap_halves (swap_lanes e_e) else e_e

/-- Function `print_entry`; `e_e` is an `unsigned long`, and `(unsigned int)e_e` is
`e_e % 2 ^ 32`. -/
def print_entry (e_e : Nat) (e_i : List Nat) : String :=
  " Entry point address: " ++
    (if byteAt e_i EI_CLASS = ELFCLASS32 then fmt_hash_x (entry_value e_e e_i % 2 ^ 32) ++ "\n"
     else fmt_hash_x (entry_value e_e e_i) ++ "\n")

/-- Function `close_elf`; `closeOk` tells whether `close` succeeded. -/
def close_elf (elf : Nat) (closeOk : Bool) : Except Fatal Unit :=
  if closeOk then .ok ()
  else .error ⟨"Error: Can't close fd " ++ fmt_d elf ++ "\n", 98⟩

/-- Little-endian value of a list of bytes. -/
def le_value : List Nat → Nat
  | [] => 0
  | b :: bs => b + 256 * le_value bs

/-- Field `e_ident` of the header held in `buf`. -/
def e_ident (buf : List Nat) : List Nat := buf.take EI_NIDENT

/-- Field `e_type` of the header held in `buf` (offset 16, 2 bytes). -/
def e_type (buf : List Nat) : Nat := le_value ((buf.drop 16).take 2)

/-- Field `e_entry` of the header held in `buf` (offset 24, 8 bytes). -/
def e_entry (buf : List Nat) : Nat := le_value ((buf.drop 24).take 8)

/-- Outcomes of the system calls of one execution of `main`. -/
structure World where
  /-- Argument `argv[1]`. -/
  path : String
  /-- Descriptor returned by `open`, `none` when it returns `-1`. -/
  openFd : Option Nat
  /-- Whether `malloc` returns a non-null pointer. -/
  mallocOk : Bool
  /-- Content of the allocated header before `read` (indeterminate, 64 bytes). -/
  heap : List Nat
  /-- Bytes stored by `read` (at most 64), `none` when it returns `-1`. -/
  readBytes : Option (List Nat)
  /-- Whether `close` succeeds. -/
  closeOk : Bool

/-- Steps of `main` that matter for the handling of its resources. -/
inductive Action
  | opened (fd : Nat)
  | openFailed
  | allocated
  | allocFailed
  | readDone (count : Nat)
  | readFailed
  | freed
  | closed (fd : Nat)
  | closeFailed (fd : Nat)
  | exited (code : Nat)
  | returned (code : Nat)
deriving DecidableEq, Repr

/-- What one execution of `main` did. -/
structure Run where
  /-- Text written to standard output. -/
  out : String
  /-- Text written to the error stream. -/
  err : String
  /-- Exit status of the process. -/
  status : Nat
  /-- Actions in the order they happened. -/
  trace : List Action
deriving DecidableEq, Repr

/-- Action recorded for a call of `close_elf`. -/
def closeAction (fd : Nat) (closeOk : Bool) : Action :=
  if closeOk then .closed fd else .closeFailed fd

/-- Header buffer after `read` stored `bytes` at its start. -/
def bufferAfterRead (heap bytes : List Nat) : List Nat :=
  (bytes ++ heap.drop bytes.length).take EHDR_SIZE

/-- The eight field lines printed by `main` after the line `ELF Header:`. -/
def report (buf : List Nat) : String :=
  "ELF Header:\n" ++ print_magic (e_ident buf) ++ print_class (e_ident buf)
    ++ print_data (e_ident buf) ++ print_version (e_ident buf) ++ print_osabi (e_ident buf)
    ++ print_abi (e_ident buf) ++ print_type (e_type buf) (e_ident buf)
    ++ print_entry (e_entry buf) (e_ident buf)

/-- Function `main`. -/
def main (w : World) : Run :=
  match w.openFd with
  | none =>
    ⟨"", "Error: Can't read file " ++ w.path ++ "\n", 98, [.openFailed, .exited 98]⟩
  | some o =>
    if !w.mallocOk then
      match close_elf o w.closeOk with
      | .error f =>
        ⟨"", f.err, f.code, [.opened o, .allocFailed, closeAction o w.closeOk, .exited f.code]⟩
      | .ok () =>
        ⟨"", "Error: Can't read file " ++ w.path ++ "\n", 98,
          [.opened o, .allocFailed, closeAction o w.closeOk, .exited 98]⟩
    else
      match w.readBytes with
      | none =>
        match close_elf o w.closeOk with
        | .error f =>
          ⟨"", f.err, f.code,
            [.opened o, .allocated, .readFailed, .freed, closeAction o w.closeOk,
              .exited f.code]⟩
        | .ok () =>
          ⟨"", "Error: `" ++ w.path ++ "`: No such file\n", 98,
            [.opened o, .allocated, .readFailed, .freed, closeAction o w.closeOk,
              .exited 98]⟩
      | some bytes =>
        match check_elf (e_ident (bufferAfterRead w.heap bytes)) with
        | .error f =>
          ⟨"", f.err, f.code,
            [.opened o, .allocated, .readDone bytes.length, .exited f.code]⟩
        | .ok () =>
          match close_elf o w.closeOk with
          | .error f =>
            ⟨report (bufferAfterRead w.heap bytes), f.err, f.code,
              [.opened o, .allocated, .readDone bytes.length, .freed,
                closeAction o w.closeOk, .exited f.code]⟩
          | .ok () =>
            ⟨report (bufferAfterRead w.heap bytes), "", 0,
              [.opened o, .allocated, .readDone bytes.length, .freed,
                closeAction o w.closeOk, .returned 0]⟩

/-- A world in which `open`, `malloc`, `read` and `close` all succeed and `read`
stores the whole of `hdr`. -/
def goodWorld (path : String) (fd : Nat) (hdr : List Nat) : World :=
  ⟨path, some fd, true, List.replicate EHDR_SIZE 0, some hdr, true⟩

/-- Little-endian encoding of `n` on `k` bytes. -/
def encode_le : Nat → Nat → List Nat
  | 0, _ => []
  | k + 1, n => n % 256 :: encode_le k (n / 256)

/-- Big-endian encoding of `n` on `k` bytes. -/
def encode_be (k n : Nat) : List Nat := (encode_le k n).reverse

/-- Byte swap of a 16-bit value. -/
def bswap16 (t : Nat) : Nat := (t % 256) * 256 + (t / 256) % 256

/-- An identification sequence with the given class and data-encoding bytes, version 1
and the System V ABI. -/
def identOf (cls data : Nat) : List Nat :=
  [127, 69, 76, 70, cls, data, 1, 0, 0, 0, 0, 0, 0, 0, 0, 0]

/-- The number shown on an Entry line is written with exactly eight hexadecimal
digits, with or without the prefix `0x`. -/
def ShowsEightDigits (line : String) : Prop :=
  ∃ X : List Char, X.length = 8 ∧ (∀ c ∈ X, (hexCharVal c).isSome = true) ∧
    (line = " Entry point address: 0x" ++ String.mk X ++ "\n" ∨
      line = " Entry point address: " ++ String.mk X ++ "\n")

/-- The 64-byte header of a 64-bit little-endian executable with entry `0x400078`. -/
def sampleHeader : List Nat :=
  [127, 69, 76, 70, 2, 1, 1, 0, 0, 0, 0, 0, 0, 0, 0, 0,
   2, 0, 62, 0, 1, 0, 0, 0, 0x78, 0x00, 0x40, 0, 0, 0, 0, 0,
   64, 0, 0, 0, 0, 0, 0, 0, 0, 0, 0, 0, 0, 0, 0, 0,
   0, 0, 0, 0, 64, 0, 56, 0, 0, 0, 64, 0, 0, 0, 0, 0]

/-- The header `sampleHeader` with its first four bytes replaced by `E`, `E`, `E`, `E`. -/
def eeeeHeader : List Nat := [69, 69, 69, 69] ++ sampleHeader.drop 4

/-! ## Reading decimal numerals back -/

/-- Value of a decimal digit. -/
def decCharVal (c : Char) : Option Nat :=
  if 48 ≤ c.toNat ∧ c.toNat ≤ 57 then some (c.toNat - 48) else none

/-- Value of a string of decimal digits; `none` when a character is not one of `0-9`. -/
def parseDec (cs : List Char) : Option Nat :=
  cs.foldl (fun acc c => acc.bind (fun a => (decCharVal c).map (fun d => 10 * a + d))) (some 0)

/-- The string `s` is the decimal numeral of `n` without padding: it is not empty, all
its characters are in `0-9`, it reads back as `n`, and it starts with `0` only when it
is the single digit `0`. -/
def IsDecimal (s : String) (n : Nat) : Prop :=
  s.data ≠ [] ∧ parseDec s.data = some n ∧ (s.data.head? = some '0' → s.data = ['0'])

instance (s : String) (n : Nat) : Decidable (IsDecimal s n) :=
  inferInstanceAs (Decidable
    (s.data ≠ [] ∧ parseDec s.data = some n ∧ (s.data.head? = some '0' → s.data = ['0'])))

/-! ## Inputs used in the statements on `main` and on the byte order -/

/-- Byte-order reversal of a 32-bit value: the four bytes of `x` read in the opposite
order. -/
def bswap32 (x : Nat) : Nat := le_value (encode_be 4 x)

/-- A world in which `open` and `malloc` succeed, `read` stores only the 16 bytes of a
16-byte file (a short read) on top of the content `heap` of the allocation, and `close`
succeeds. -/
def shortReadWorld (heap : List Nat) : World :=
  ⟨"a.out", some 3, true, heap, some (identOf ELFCLASS64 ELFDATA2LSB), true⟩

/-- A world in which everything succeeds and the file is 64 zero bytes: no magic. -/
def badMagicWorld : World := goodWorld "a.out" 3 (List.replicate EHDR_SIZE 0)

/-- A world in which `open` and `malloc` succeed and `read` returns `-1`. -/
def readErrorWorld : World :=
  ⟨"a.out", some 3, true, List.replicate EHDR_SIZE 0, none, true⟩

/-- The function `close_elf` was called on `fd` during the run. -/
def CloseInvoked (fd : Nat) (r : Run) : Prop :=
  Action.closed fd ∈ r.trace ∨ Action.closeFailed fd ∈ r.trace

instance (fd : Nat) (r : Run) : Decidable (CloseInvoked fd r) :=
  inferInstanceAs (Decidable (Action.closed fd ∈ r.trace ∨ Action.closeFailed fd ∈ r.trace))

/-- The header `sampleHeader` with its first four bytes replaced by `F`, `L`, `E`,
`0x7F`. -/
def flehHeader : List Nat := [70, 76, 69, 127] ++ sampleHeader.drop 4

/-- The header `sampleHeader` with its first four bytes replaced by `L`, `L`, `L`, `L`. -/
def llllHeader : List Nat := [76, 76, 76, 76] ++ sampleHeader.drop 4

/-! ## Lemmas on the conversions -/

theorem digitsCore_append (base : Nat) (hb : 2 ≤ base) :
    ∀ fuel n acc, n < fuel → digitsCore base fuel n acc = digits base n ++ acc := by
  intro fuel
  induction fuel using Nat.strong_induction_on with
  | _ fuel ih =>
    intro n acc hn
    cases fuel with
    | zero => omega
    | succ f =>
      unfold digits
      simp only [digitsCore]
      by_cases h : n < base
      · simp [h]
      · simp only [h, if_false]
        have hdiv : n / base < n := Nat.div_lt_self (by omega) (by omega)
        rw [ih f (by omega) (n / base) _ (by omega)]
        rw [ih n (by omega) (n / base) _ hdiv]
        simp

theorem digits_of_lt (base n : Nat) (h : n < base) : digits base n = [Nat.digitChar n] := by
  simp [digits, digitsCore, h]

theorem digits_of_ge (base n : Nat) (hb : 2 ≤ base) (h : base ≤ n) :
    digits base n = digits base (n / base) ++ [Nat.digitChar (n % base)] := by
  have hdiv : n / base < n := Nat.div_lt_self (by omega) (by omega)
  conv_lhs => unfold digits
  simp only [digitsCore, Nat.not_lt.mpr h, if_false]
  exact digitsCore_append base hb n (n / base) _ hdiv

theorem hexCharVal_digitChar (d : Nat) (h : d < 16) : hexCharVal (Nat.digitChar d) = some d := by
  interval_cases d <;> rfl

theorem parseHex_snoc (cs : List Char) (c : Char) :
    parseHex (cs ++ [c]) =
      (parseHex cs).bind (fun a => (hexCharVal c).map (fun d => 16 * a + d)) := by
  simp [parseHex, List.foldl_append]

theorem parseHex_digits (n : Nat) : parseHex (digits 16 n) = some n := by
  induction n using Nat.strong_induction_on with
  | _ n ih =>
    by_cases h : n < 16
    · rw [digits_of_lt 16 n h]
      simp [parseHex, hexCharVal_digitChar n h]
    · rw [digits_of_ge 16 n (by omega) (by omega), parseHex_snoc,
        ih (n / 16) (by omega), hexCharVal_digitChar (n % 16) (Nat.mod_lt _ (by omega))]
      simp
      omega

theorem digits_ne_nil (base n : Nat) (hb : 2 ≤ base) : digits base n ≠ [] := by
  by_cases h : n < base
  · simp [digits_of_lt base n h]
  · simp [digits_of_ge base n hb (by omega)]

theorem digitChar_ne_zero (d : Nat) (h0 : d ≠ 0) (h : d < 16) : Nat.digitChar d ≠ '0' := by
  interval_cases d <;> first | omega | decide

theorem digits_head (n : Nat) (h0 : n ≠ 0) : (digits 16 n).head? ≠ some '0' := by
  induction n using Nat.strong_induction_on with
  | _ n ih =>
    by_cases h : n < 16
    · rw [digits_of_lt 16 n h]
      simpa using digitChar_ne_zero n h0 h
    · rw [digits_of_ge 16 n (by omega) (by omega)]
      have hne := digits_ne_nil 16 (n / 16) (by omega)
      have := ih (n / 16) (by omega) (by omega)
      cases hd : digits 16 (n / 16) with
      | nil => exact absurd hd hne
      | cons c cs => rw [hd] at this; simpa using this

theorem isLowerHex_fmt_x (n : Nat) : IsLowerHex (fmt_x n) n := by
  refine ⟨digits_ne_nil 16 n (by omega), parseHex_digits n, ?_⟩
  intro hh
  by_cases h0 : n = 0
  · subst h0; rfl
  · exact absurd hh (digits_head n h0)

theorem digits_length_le (n k : Nat) (hk : 1 ≤ k) (h : n < 16 ^ k) :
    (digits 16 n).length ≤ k := by
  induction k generalizing n with
  | zero => omega
  | succ k ih =>
    by_cases hn : n < 16
    · simp [digits_of_lt 16 n hn]
    · rw [digits_of_ge 16 n (by omega) (by omega)]
      have hk1 : 1 ≤ k := by
        rcases Nat.eq_zero_or_pos k with h0 | h0
        · subst h0; simp at h; omega
        · exact h0
      have : n / 16 < 16 ^ k := by
        rw [Nat.div_lt_iff_lt_mul (by omega)]
        rw [pow_succ] at h; exact h
      have := ih (n / 16) hk1 this
      simp; omega

theorem fmt_02x_byte (b : Nat) (h : b < 256) : fmt_02x b = byteToken b := by
  by_cases hb : b < 16
  · have h0 : b / 16 = 0 := by omega
    have h1 : b % 16 = b := by omega
    simp [fmt_02x, byteToken, digits_of_lt 16 b hb, h0, h1]
    rfl
  · have hq : b / 16 < 16 := by omega
    simp [fmt_02x, byteToken, digits_of_ge 16 b (by omega) (by omega), digits_of_lt 16 _ hq]


theorem hexCharVal_eq_some (c : Char) (d : Nat) (h : hexCharVal c = some d) :
    d < 16 ∧ c = Nat.digitChar d := by
  have hc : Char.ofNat c.toNat = c := Char.ofNat_toNat c
  unfold hexCharVal at h
  generalize c.toNat = k at hc h
  subst hc
  by_cases h1 : 48 ≤ k ∧ k ≤ 57
  · rw [if_pos h1] at h
    obtain ⟨ha, hb⟩ := h1
    have hd : d = k - 48 := (Option.some.inj h).symm
    subst hd
    interval_cases k <;> exact ⟨by omega, by decide⟩
  · rw [if_neg h1] at h
    by_cases h2 : 97 ≤ k ∧ k ≤ 102
    · rw [if_pos h2] at h
      obtain ⟨ha, hb⟩ := h2
      have hd : d = k - 87 := (Option.some.inj h).symm
      subst hd
      interval_cases k <;> exact ⟨by omega, by decide⟩
    · rw [if_neg h2] at h
      exact Option.noConfusion h

theorem parseHex_snoc_eq_some (cs : List Char) (c : Char) (n : Nat)
    (h : parseHex (cs ++ [c]) = some n) :
    ∃ a d, parseHex cs = some a ∧ d < 16 ∧ c = Nat.digitChar d ∧ n = 16 * a + d := by
  rw [parseHex_snoc] at h
  cases ha : parseHex cs with
  | none => rw [ha] at h; exact Option.noConfusion h
  | some a =>
    rw [ha] at h
    simp only [Option.some_bind] at h
    cases hd : hexCharVal c with
    | none => rw [hd] at h; exact Option.noConfusion h
    | some d =>
      rw [hd] at h
      obtain ⟨hlt, hc⟩ := hexCharVal_eq_some c d hd
      exact ⟨a, d, rfl, hlt, hc, (Option.some.inj h).symm⟩

theorem digits_zero : digits 16 0 = ['0'] := by decide

theorem isLowerHex_unique_aux (cs : List Char) :
    ∀ n, cs ≠ [] → parseHex cs = some n → (cs.head? = some '0' → cs = ['0']) →
      cs = digits 16 n := by
  induction cs using List.reverseRecOn with
  | nil => intro n h; exact absurd rfl h
  | append_singleton init c ih =>
    intro n _ hparse hhead
    obtain ⟨a, d, ha, hd, hc, hn⟩ := parseHex_snoc_eq_some init c n hparse
    subst hc hn
    cases hinit : init with
    | nil =>
      subst hinit
      have : a = 0 := by simpa [parseHex] using ha.symm
      subst this
      simp [digits_of_lt 16 d hd]
    | cons x xs =>
      have hne : init ≠ [] := by rw [hinit]; simp
      have hx : x ≠ '0' := by
        intro hx0
        have := hhead (by rw [hinit, hx0]; rfl)
        rw [hinit] at this
        simp at this
      have hinit_eq : init = digits 16 a :=
        ih a hne ha (by
          intro h0
          rw [hinit] at h0
          simp at h0
          exact absurd h0 hx)
      have ha0 : a ≠ 0 := by
        intro h0
        rw [h0, digits_zero, hinit] at hinit_eq
        simp at hinit_eq
        exact hx hinit_eq.1
      rw [← hinit, digits_of_ge 16 (16 * a + d) (by omega) (by omega)]
      have e1 : (16 * a + d) / 16 = a := by omega
      have e2 : (16 * a + d) % 16 = d := by omega
      rw [e1, e2, ← hinit_eq]

/-- The numeral described by `IsLowerHex` is the one `%x` prints. -/
theorem isLowerHex_unique (s : String) (n : Nat) (h : IsLowerHex s n) : s = fmt_x n := by
  obtain ⟨h1, h2, h3⟩ := h
  have := isLowerHex_unique_aux s.data n h1 h2 h3
  unfold fmt_x
  rw [← this]

theorem digitChar_ne_newline (d : Nat) (h : d < 16) : Nat.digitChar d ≠ '\n' := by
  interval_cases d <;> decide

theorem newline_not_mem_digits (base n : Nat) (hb : 2 ≤ base) (hb16 : base ≤ 16) :
    '\n' ∉ digits base n := by
  induction n using Nat.strong_induction_on with
  | _ n ih =>
    by_cases h : n < base
    · rw [digits_of_lt base n h]
      simpa using (digitChar_ne_newline n (by omega)).symm
    · rw [digits_of_ge base n hb (by omega)]
      have hdiv : n / base < n := Nat.div_lt_self (by omega) (by omega)
      simp [ih (n / base) hdiv]
      exact (digitChar_ne_newline _ (lt_of_lt_of_le (Nat.mod_lt _ (by omega)) hb16)).symm

theorem newlines_append (a b : String) : newlines (a ++ b) = newlines a + newlines b := by
  simp [newlines, String.data_append, List.count_append]

theorem newlines_fmt_x (n : Nat) : newlines (fmt_x n) = 0 := by
  simp [newlines, fmt_x, List.count_eq_zero, newline_not_mem_digits 16 n (by omega) (by omega)]

theorem newlines_fmt_d (n : Nat) : newlines (fmt_d n) = 0 := by
  simp [newlines, fmt_d, List.count_eq_zero, newline_not_mem_digits 10 n (by omega) (by omega)]

theorem newlines_fmt_02x (n : Nat) : newlines (fmt_02x n) = 0 := by
  simp [newlines, fmt_02x, List.count_eq_zero,
    newline_not_mem_digits 16 n (by omega) (by omega)]

theorem newlines_fmt_hash_x (n : Nat) : newlines (fmt_hash_x n) = 0 := by
  unfold fmt_hash_x
  split
  · rfl
  · rw [newlines_append, newlines_fmt_x]; rfl

theorem isLine_append_left (p s : String) (hp : newlines p = 0) (hs : IsLine s) :
    IsLine (p ++ s) := by
  obtain ⟨hc, hl⟩ := hs
  refine ⟨by rw [newlines_append, hp, hc], ?_⟩
  have hne : s.data ≠ [] := by
    intro h; rw [h] at hl; simp at hl
  rw [String.data_append, List.getLast?_append_of_ne_nil _ hne]
  exact hl

theorem isLine_print_magic_loop (e_i : List Nat) :
    ∀ k index, 1 ≤ k → index + k = EI_NIDENT → IsLine (print_magic_loop e_i k index) := by
  intro k
  induction k with
  | zero => intro index h; omega
  | succ k ih =>
    intro index _ hsum
    simp only [print_magic_loop]
    by_cases hk : k = 0
    · subst hk
      have hidx : index = EI_NIDENT - 1 := by omega
      simp only [hidx, if_true, print_magic_loop]
      rw [String.append_assoc]
      exact isLine_append_left _ _ (newlines_fmt_02x _) (by decide)
    · have hidx : index ≠ EI_NIDENT - 1 := by
        simp only [EI_NIDENT] at hsum ⊢; omega
      simp only [hidx, if_false]
      apply isLine_append_left
      · rw [newlines_append, newlines_fmt_02x]; rfl
      · exact ih (index + 1) (by omega) (by omega)

theorem isLine_print_magic (e_i : List Nat) : IsLine (print_magic e_i) :=
  isLine_append_left _ _ (by rfl) (isLine_print_magic_loop e_i EI_NIDENT 0 (by decide) (by decide))

theorem isLine_unknown (x : String) (hx : newlines x = 0) :
    IsLine ("<unknown: " ++ x ++ ">\n") :=
  isLine_append_left _ _ (by rw [newlines_append, hx]; rfl) (by decide)

theorem isLine_print_class (e_i : List Nat) : IsLine (print_class e_i) := by
  unfold print_class
  refine isLine_append_left _ _ (by rfl) ?_
  split_ifs
  · decide
  · decide
  · decide
  · exact isLine_unknown _ (newlines_fmt_x _)

theorem isLine_print_data (e_i : List Nat) : IsLine (print_data e_i) := by
  unfold print_data
  refine isLine_append_left _ _ (by rfl) ?_
  split_ifs
  · decide
  · decide
  · decide
  · exact isLine_unknown _ (newlines_fmt_x _)

theorem isLine_print_version (e_i : List Nat) : IsLine (print_version e_i) := by
  unfold print_version
  refine isLine_append_left _ _ (by rw [newlines_append, newlines_fmt_d]; rfl) ?_
  split_ifs <;> decide

theorem isLine_print_osabi (e_i : List Nat) : IsLine (print_osabi e_i) := by
  unfold print_osabi
  refine isLine_append_left _ _ (by rfl) ?_
  split_ifs
  all_goals first
    | decide
    | exact isLine_unknown _ (newlines_fmt_x _)

theorem isLine_print_abi (e_i : List Nat) : IsLine (print_abi e_i) := by
  unfold print_abi
  exact isLine_append_left _ _ (by rw [newlines_append, newlines_fmt_d]; rfl) (by decide)

theorem isLine_print_type (e_t : Nat) (e_i : List Nat) : IsLine (print_type e_t e_i) := by
  unfold print_type
  refine isLine_append_left _ _ (by rfl) ?_
  split_ifs
  all_goals first
    | decide
    | exact isLine_unknown _ (newlines_fmt_x _)

theorem isLine_print_entry (e_e : Nat) (e_i : List Nat) : IsLine (print_entry e_e e_i) := by
  unfold print_entry
  refine isLine_append_left _ _ (by rfl) ?_
  split_ifs
  · exact isLine_append_left _ _ (newlines_fmt_hash_x _) (by decide)
  · exact isLine_append_left _ _ (newlines_fmt_hash_x _) (by decide)

theorem testBit_const_lt (c i k : Nat) (hc : c < 2 ^ k) (h : c.testBit i = true) : i < k := by
  by_contra hik
  have : c < 2 ^ i := lt_of_lt_of_le hc (Nat.pow_le_pow_right (by omega) (by omega))
  rw [Nat.testBit_eq_false_of_lt this] at h
  exact Bool.noConfusion h

theorem swap_lanes_mod (e : Nat) : swap_lanes (e % 2 ^ 32) = swap_lanes e := by
  unfold swap_lanes
  apply Nat.eq_of_testBit_eq
  intro i
  simp only [Nat.testBit_or, Nat.testBit_and, Nat.testBit_mod_two_pow, Nat.testBit_shiftLeft,
    Nat.testBit_shiftRight]
  have h1 : Nat.testBit 0xFF00FF00 i = true → i - 8 < 32 := fun h => by
    have := testBit_const_lt _ i 32 (by norm_num) h; omega
  have h2 : Nat.testBit 0xFF00FF i = true → 8 + i < 32 := fun h => by
    have := testBit_const_lt _ i 24 (by norm_num) h; omega
  cases hA : Nat.testBit 0xFF00FF00 i <;> cases hB : Nat.testBit 0xFF00FF i <;>
    simp [h1, h2, hA, hB]

theorem entry_value_mod (e : Nat) (e_i : List Nat) :
    entry_value (e % 2 ^ 32) e_i % 2 ^ 32 = entry_value e e_i % 2 ^ 32 := by
  unfold entry_value
  split_ifs
  · rw [swap_lanes_mod]
  · exact Nat.mod_mod _ _


/-! ## Claims -/

set_option maxRecDepth 100000 in
/-- C1: a buffer whose first four bytes are not the magic `0x7F 'E' 'L' 'F'` should be
refused with `Error: Not an ELF file`, but `check_elf` only tests that each of the four
bytes is one of the four magic values: on the header starting `E E E E` `main` writes
nothing to the error stream, prints the whole report and returns 0. -/
theorem main_accepts_EEEE :
    eeeeHeader.take 4 ≠ [127, 69, 76, 70] ∧
    (main (goodWorld "a.out" 3 eeeeHeader)).err = "" ∧
    (main (goodWorld "a.out" 3 eeeeHeader)).status = 0 ∧
    (main (goodWorld "a.out" 3 eeeeHeader)).out =
      "ELF Header:\n Magic: 45 45 45 45 02 01 01 00 00 00 00 00 00 00 00 00\n" ++
      " Class: ELF64\n Data: 2's complement, little endian\n Version: 1 (current)\n" ++
      " OS/ABI: UNIX - System V\n ABI Version: 0\n Type: EXEC (Executable file)\n" ++
      " Entry point address: 0x400078\n" := by
  decide

theorem bufferAfterRead_full (heap hdr : List Nat) (hlen : hdr.length = 64) :
    bufferAfterRead heap hdr = hdr := by
  unfold bufferAfterRead EHDR_SIZE
  rw [List.take_append_of_le_length (by omega), List.take_of_length_le (by omega)]

theorem check_elf_magic (buf : List Nat) (hmagic : buf.take 4 = [127, 69, 76, 70]) :
    check_elf (e_ident buf) = .ok () := by
  match buf, hmagic with
  | [a, b, c, d], h =>
    simp only [List.take, List.cons.injEq] at h
    obtain ⟨rfl, rfl, rfl, rfl, _⟩ := h
    rfl
  | a :: b :: c :: d :: x :: rest, h =>
    simp only [List.take, List.cons.injEq] at h
    obtain ⟨rfl, rfl, rfl, rfl, _⟩ := h
    rfl

/-- C2: for every 64-byte header that starts with the magic, whatever `close` returns,
the standard output of `main` is the line `ELF Header:` followed by the outputs of
`print_magic`, `print_class`, `print_data`, `print_version`, `print_osabi`, `print_abi`,
`print_type` and `print_entry` in this order, and each of these eight outputs is exactly
one line. -/
theorem main_report_order (path : String) (fd : Nat) (heap hdr : List Nat) (closeOk : Bool)
    (hlen : hdr.length = 64) (hmagic : hdr.take 4 = [127, 69, 76, 70]) :
    (main ⟨path, some fd, true, heap, some hdr, closeOk⟩).out =
        "ELF Header:\n" ++ print_magic (e_ident hdr) ++ print_class (e_ident hdr)
          ++ print_data (e_ident hdr) ++ print_version (e_ident hdr)
          ++ print_osabi (e_ident hdr) ++ print_abi (e_ident hdr)
          ++ print_type (e_type hdr) (e_ident hdr) ++ print_entry (e_entry hdr) (e_ident hdr)
      ∧ IsLine (print_magic (e_ident hdr)) ∧ IsLine (print_class (e_ident hdr))
      ∧ IsLine (print_data (e_ident hdr)) ∧ IsLine (print_version (e_ident hdr))
      ∧ IsLine (print_osabi (e_ident hdr)) ∧ IsLine (print_abi (e_ident hdr))
      ∧ IsLine (print_type (e_type hdr) (e_ident hdr))
      ∧ IsLine (print_entry (e_entry hdr) (e_ident hdr)) := by
  refine ⟨?_, isLine_print_magic _, isLine_print_class _, isLine_print_data _,
    isLine_print_version _, isLine_print_osabi _, isLine_print_abi _, isLine_print_type _ _,
    isLine_print_entry _ _⟩
  have hbuf := bufferAfterRead_full heap hdr hlen
  have hchk := check_elf_magic hdr hmagic
  cases closeOk <;> simp [main, hbuf, hchk, close_elf, report]

set_option maxRecDepth 100000 in
/-- C2, on the header with class 2, data 1, version 1, OS/ABI 0, ABI version 0, type 2
and entry `0x400078`: the report read line by line. -/
theorem main_report_order_witness :
    sampleHeader.length = 64 ∧ sampleHeader.take 4 = [127, 69, 76, 70] ∧
    (main (goodWorld "a.out" 3 sampleHeader)).out =
      "ELF Header:\n Magic: 7f 45 4c 46 02 01 01 00 00 00 00 00 00 00 00 00\n" ++
      " Class: ELF64\n Data: 2's complement, little endian\n Version: 1 (current)\n" ++
      " OS/ABI: UNIX - System V\n ABI Version: 0\n Type: EXEC (Executable file)\n" ++
      " Entry point address: 0x400078\n" :=
  ⟨by decide, by decide,
    (main_report_order "a.out" 3 (List.replicate EHDR_SIZE 0) sampleHeader true
      (by decide) (by decide)).1.trans (by decide)⟩

/-- C3: the Entry line of a 64-bit big-endian header should show the address that its
bytes encode, as the little-endian header does; the masks `0xFF00FF00` and `0xFF00FF` of
`print_entry` keep 32 bits only, and for the address `0x4003a0` the big-endian header is
shown with entry `0` while the little-endian one is shown with `0x4003a0`. -/
theorem print_entry_big_endian_64 :
    print_entry (le_value (encode_be 8 0x4003a0)) (identOf ELFCLASS64 ELFDATA2MSB)
        = " Entry point address: 0\n" ∧
    print_entry (le_value (encode_le 8 0x4003a0)) (identOf ELFCLASS64 ELFDATA2LSB)
        = " Entry point address: 0x4003a0\n" := by
  decide

/-- C4: the Type line of a big-endian header should be that of the byte-swapped value;
`print_type` shifts the value right by 8 instead, which drops the low byte: the stored
value `0x00fe` (type `0xfe00` of a big-endian file) is shown as `NONE (None)`, while its
byte swap `0xfe00` under little-endian is shown as `<unknown: fe00>`. -/
theorem print_type_big_endian_shift :
    bswap16 0x00fe = 0xfe00 ∧
    print_type 0x00fe (identOf ELFCLASS64 ELFDATA2MSB) = " Type: NONE (None)\n" ∧
    print_type (bswap16 0x00fe) (identOf ELFCLASS64 ELFDATA2LSB)
        = " Type: <unknown: fe00>\n" := by
  decide

theorem unknown_line (p x : String) :
    p ++ ("<unknown: " ++ x ++ ">\n") = (p ++ "<unknown: ") ++ x ++ ">\n" := by
  simp [String.append_assoc]

/-- C5: when the data-encoding byte is not big-endian, `print_type` prints ` Type: `
followed by the label of the values 0 to 4, and for every other value `<unknown: X>`
where `X` is the lowercase unpadded hexadecimal numeral of the value. -/
theorem print_type_table (t : Nat) (e_i : List Nat)
    (hdata : byteAt e_i EI_DATA ≠ ELFDATA2MSB) :
    (t = 0 → print_type t e_i = " Type: NONE (None)\n") ∧
    (t = 1 → print_type t e_i = " Type: REL (Relocatable file)\n") ∧
    (t = 2 → print_type t e_i = " Type: EXEC (Executable file)\n") ∧
    (t = 3 → print_type t e_i = " Type: DYN (Shared object file)\n") ∧
    (t = 4 → print_type t e_i = " Type: CORE (Core file)\n") ∧
    (4 < t → ∃ X : String, IsLowerHex X t ∧
      print_type t e_i = " Type: <unknown: " ++ X ++ ">\n") := by
  have hv : type_value t e_i = t := by simp [type_value, hdata]
  refine ⟨?_, ?_, ?_, ?_, ?_, ?_⟩
  · rintro rfl; simp [print_type, hv, ET_NONE]
  · rintro rfl; simp [print_type, hv, ET_NONE, ET_REL]
  · rintro rfl; simp [print_type, hv, ET_NONE, ET_REL, ET_EXEC]
  · rintro rfl; simp [print_type, hv, ET_NONE, ET_REL, ET_EXEC, ET_DYN]
  · rintro rfl; simp [print_type, hv, ET_NONE, ET_REL, ET_EXEC, ET_DYN, ET_CORE]
  · intro h
    refine ⟨fmt_x t, isLowerHex_fmt_x t, ?_⟩
    have h0 : t ≠ 0 := by omega
    have h1 : t ≠ 1 := by omega
    have h2 : t ≠ 2 := by omega
    have h3 : t ≠ 3 := by omega
    have h4 : t ≠ 4 := by omega
    simp only [print_type, hv, ET_NONE, ET_REL, ET_EXEC, ET_DYN, ET_CORE, h0, h1, h2, h3, h4,
      if_false]
    rw [unknown_line]; rfl

/-- C5, at the value 2 under a little-endian data encoding. -/
theorem print_type_table_witness :
    byteAt (identOf ELFCLASS64 ELFDATA2LSB) EI_DATA ≠ ELFDATA2MSB ∧
    print_type 2 (identOf ELFCLASS64 ELFDATA2LSB) = " Type: EXEC (Executable file)\n" :=
  ⟨by decide, (print_type_table 2 (identOf ELFCLASS64 ELFDATA2LSB) (by decide)).2.2.1 rfl⟩


/-- C6: for a nonzero entry value, a class other than 32-bit and a data encoding other
than big-endian, `print_entry` prints ` Entry point address: 0x` followed by the
lowercase unpadded hexadecimal numeral of the value itself. -/
theorem print_entry_plain (e : Nat) (e_i : List Nat) (he : e ≠ 0)
    (hclass : byteAt e_i EI_CLASS ≠ ELFCLASS32) (hdata : byteAt e_i EI_DATA ≠ ELFDATA2MSB) :
    ∃ X : String, IsLowerHex X e ∧
      print_entry e e_i = " Entry point address: 0x" ++ X ++ "\n" := by
  refine ⟨fmt_x e, isLowerHex_fmt_x e, ?_⟩
  simp only [print_entry, entry_value, hclass, hdata, if_false, fmt_hash_x, he]
  rw [← String.append_assoc, ← String.append_assoc]
  rfl

/-- C6, at class 64-bit, little-endian data and entry `0x4003a0`. -/
theorem print_entry_plain_witness :
    print_entry 0x4003a0 (identOf ELFCLASS64 ELFDATA2LSB)
      = " Entry point address: 0x4003a0\n" :=
  Exists.elim
    (print_entry_plain 0x4003a0 (identOf ELFCLASS64 ELFDATA2LSB) (by decide) (by decide)
      (by decide))
    (fun X hX => by rw [hX.2, isLowerHex_unique X _ hX.1]; decide)

/-- C7: for class 32-bit, two entry values that agree in their low 32 bits give the
same Entry line; the line is that of the low 32 bits alone and shows a value below
`2 ^ 32`. -/
theorem print_entry_class32_low_bits (e e' : Nat) (e_i : List Nat)
    (hclass : byteAt e_i EI_CLASS = ELFCLASS32) (hlow : e % 2 ^ 32 = e' % 2 ^ 32) :
    print_entry e e_i = print_entry e' e_i ∧
    print_entry e e_i = print_entry (e % 2 ^ 32) e_i ∧
    ∃ v : Nat, v < 2 ^ 32 ∧
      print_entry e e_i = " Entry point address: " ++ fmt_hash_x v ++ "\n" := by
  have key : ∀ a : Nat, print_entry a e_i
      = " Entry point address: " ++ (fmt_hash_x (entry_value (a % 2 ^ 32) e_i % 2 ^ 32) ++ "\n") := by
    intro a
    simp only [print_entry, hclass, if_true, entry_value_mod]
  refine ⟨?_, ?_, entry_value e e_i % 2 ^ 32, Nat.mod_lt _ (by norm_num), ?_⟩
  · rw [key e, key e', hlow]
  · rw [key e, key (e % 2 ^ 32), Nat.mod_mod]
  · rw [key e, entry_value_mod, String.append_assoc]

/-- C7, at the values `0x400078` and `0x100400078` under class 32-bit. -/
theorem print_entry_class32_low_bits_witness :
    print_entry 0x100400078 (identOf ELFCLASS32 ELFDATA2LSB)
      = print_entry 0x400078 (identOf ELFCLASS32 ELFDATA2LSB) :=
  (print_entry_class32_low_bits 0x100400078 0x400078 (identOf ELFCLASS32 ELFDATA2LSB)
    (by decide) (by decide)).1

/-- C8, as stated: the entry `0x400078` under class 32-bit is not shown with eight
hexadecimal digits; the line is ` Entry point address: 0x400078`. -/
theorem print_entry_class32_not_eight_digits :
    ¬ ShowsEightDigits (print_entry 0x400078 (identOf ELFCLASS32 ELFDATA2LSB)) := by
  have hval : print_entry 0x400078 (identOf ELFCLASS32 ELFDATA2LSB)
      = " Entry point address: 0x400078\n" := by decide
  rw [hval]
  rintro ⟨X, hlen, hhex, h | h⟩
  · have hd := congrArg String.data h
    simp only [String.data_append] at hd
    have hlen' := congrArg List.length hd
    simp only [List.length_append, hlen] at hlen'
    revert hlen'
    decide
  · have hd := congrArg String.data h
    simp only [String.data_append] at hd
    have hX : "0x400078".data = X :=
      List.append_cancel_right (@List.append_cancel_left Char " Entry point address: ".data _ _ hd)
    have hx := hhex 'x' (by rw [← hX]; decide)
    revert hx
    decide

/-- C8, amended: for class 32-bit the Entry line shows a value `v` below `2 ^ 32`
(the low 32 bits of the stored field when the data encoding is not big-endian) without
padding: `0` when `v` is zero, otherwise `0x` followed by the lowercase hexadecimal
numeral of `v` without leading zeros, which has at most eight digits. -/
theorem print_entry_class32_unpadded (e : Nat) (e_i : List Nat)
    (hclass : byteAt e_i EI_CLASS = ELFCLASS32) :
    ∃ v : Nat, v < 2 ^ 32 ∧
      (byteAt e_i EI_DATA ≠ ELFDATA2MSB → v = e % 2 ^ 32) ∧
      (v = 0 → print_entry e e_i = " Entry point address: 0\n") ∧
      (v ≠ 0 → ∃ X : String, IsLowerHex X v ∧ X.length ≤ 8 ∧
        print_entry e e_i = " Entry point address: 0x" ++ X ++ "\n") := by
  refine ⟨entry_value e e_i % 2 ^ 32, Nat.mod_lt _ (by norm_num), ?_, ?_, ?_⟩
  · intro hdata
    simp [entry_value, hdata]
  · intro h0
    simp only [print_entry, hclass, if_true, h0]
    decide
  · intro h0
    refine ⟨fmt_x (entry_value e e_i % 2 ^ 32), isLowerHex_fmt_x _, ?_, ?_⟩
    · exact digits_length_le _ 8 (by norm_num) (Nat.mod_lt _ (by norm_num))
    · simp only [print_entry, hclass, if_true, fmt_hash_x, h0, if_false]
      rw [← String.append_assoc, ← String.append_assoc]
      rfl

/-- C8 amended, at the entry `0x400078`: six digits, no padding. -/
theorem print_entry_class32_unpadded_witness :
    print_entry 0x400078 (identOf ELFCLASS32 ELFDATA2LSB)
      = " Entry point address: 0x400078\n" :=
  Exists.elim (print_entry_class32_unpadded 0x400078 (identOf ELFCLASS32 ELFDATA2LSB)
    (by decide)) (fun v hv => by
      obtain ⟨_, hval, _, hnz⟩ := hv
      have hv0 : v = 0x400078 := (hval (by decide)).trans (by norm_num)
      subst hv0
      obtain ⟨X, hX, _, hout⟩ := hnz (by decide)
      rw [hout, isLowerHex_unique X _ hX]
      decide)

theorem intercalate_go_append (p acc s : String) (l : List String) :
    String.intercalate.go (p ++ acc) s l = p ++ String.intercalate.go acc s l := by
  induction l generalizing acc with
  | nil => simp [String.intercalate.go]
  | cons a l ih =>
    simp only [String.intercalate.go]
    rw [String.append_assoc, String.append_assoc, ← String.append_assoc acc, ih]

theorem intercalate_cons_cons (s a b : String) (l : List String) :
    s.intercalate (a :: b :: l) = a ++ s ++ s.intercalate (b :: l) := by
  simp only [String.intercalate, String.intercalate.go]
  rw [intercalate_go_append]

theorem byteAt_drop (e_i : List Nat) (index : Nat) (h : index < e_i.length) :
    e_i.drop index = byteAt e_i index :: e_i.drop (index + 1) := by
  rw [List.drop_eq_getElem_cons h]
  simp [byteAt, List.getD_eq_getElem?_getD, List.getElem?_eq_getElem h]

theorem print_magic_loop_tokens (e_i : List Nat) (hbytes : ∀ b ∈ e_i, b < 256)
    (hlen : e_i.length = EI_NIDENT) :
    ∀ k index, index + k = EI_NIDENT → 1 ≤ k →
      print_magic_loop e_i k index
        = " ".intercalate ((e_i.drop index).map byteToken) ++ "\n" := by
  intro k
  induction k with
  | zero => intro index _ h; omega
  | succ k ih =>
    intro index hsum _
    have hidx : index < e_i.length := by omega
    have hdrop := byteAt_drop e_i index hidx
    have hb : byteAt e_i index < 256 := by
      apply hbytes
      have : byteAt e_i index ∈ e_i.drop index := by rw [hdrop]; simp
      exact List.mem_of_mem_drop this
    simp only [print_magic_loop]
    rw [hdrop, fmt_02x_byte _ hb]
    by_cases hk : k = 0
    · subst hk
      have hlast : index = EI_NIDENT - 1 := by omega
      have hnil : e_i.drop (index + 1) = [] := List.drop_of_length_le (by omega)
      rw [hnil, if_pos hlast]
      simp [print_magic_loop, String.intercalate, String.intercalate.go]
    · have hnot : index ≠ EI_NIDENT - 1 := by
        simp only [EI_NIDENT] at hsum ⊢; omega
      rw [ih (index + 1) (by omega) (by omega), if_neg hnot]
      rw [byteAt_drop e_i (index + 1) (by omega)]
      simp only [List.map_cons]
      rw [intercalate_cons_cons]
      simp only [String.append_assoc]

/-- C9: for every identification sequence of 16 bytes, `print_magic` prints ` Magic: `,
then the 16 two-character tokens of the bytes in order, separated by single spaces, then
a newline; the token of a byte has two characters and is its lowercase hexadecimal
numeral padded with a zero. -/
theorem print_magic_tokens (e_i : List Nat) (hlen : e_i.length = 16)
    (hbytes : ∀ b ∈ e_i, b < 256) :
    print_magic e_i = " Magic: " ++ " ".intercalate (e_i.map byteToken) ++ "\n" ∧
    (e_i.map byteToken).length = 16 ∧
    ∀ b ∈ e_i, (byteToken b).length = 2 ∧ parseHex (byteToken b).data = some b := by
  refine ⟨?_, by simp [hlen], ?_⟩
  · unfold print_magic
    rw [print_magic_loop_tokens e_i hbytes hlen EI_NIDENT 0 (by decide) (by decide)]
    simp [String.append_assoc]
  · intro b hb
    have h256 := hbytes b hb
    refine ⟨rfl, ?_⟩
    simp only [byteToken, parseHex, List.foldl]
    rw [hexCharVal_digitChar (b / 16) (by omega), hexCharVal_digitChar (b % 16)
      (Nat.mod_lt _ (by omega))]
    simp
    omega

set_option maxRecDepth 100000 in
/-- C9, on the identification bytes of a 64-bit little-endian header. -/
theorem print_magic_tokens_witness :
    print_magic (identOf ELFCLASS64 ELFDATA2LSB)
      = " Magic: 7f 45 4c 46 02 01 01 00 00 00 00 00 00 00 00 00\n" :=
  (print_magic_tokens (identOf ELFCLASS64 ELFDATA2LSB) (by decide) (by decide)).1.trans
    (by decide)

/-- C10: `print_osabi` prints ` OS/ABI: ` followed by the name of the OS/ABI byte for
the ten named values, and for every other byte `<unknown: X>` where `X` is the
lowercase unpadded hexadecimal numeral of the byte. -/
theorem print_osabi_table (e_i : List Nat) :
    (byteAt e_i EI_OSABI = 0 → print_osabi e_i = " OS/ABI: UNIX - System V\n") ∧
    (byteAt e_i EI_OSABI = 1 → print_osabi e_i = " OS/ABI: UNIX - HP-UX\n") ∧
    (byteAt e_i EI_OSABI = 2 → print_osabi e_i = " OS/ABI: UNIX - NetBSD\n") ∧
    (byteAt e_i EI_OSABI = 3 → print_osabi e_i = " OS/ABI: UNIX - Linux\n") ∧
    (byteAt e_i EI_OSABI = 6 → print_osabi e_i = " OS/ABI: UNIX - Solaris\n") ∧
    (byteAt e_i EI_OSABI = 8 → print_osabi e_i = " OS/ABI: UNIX - IRIX\n") ∧
    (byteAt e_i EI_OSABI = 9 → print_osabi e_i = " OS/ABI: UNIX - FreeBSD\n") ∧
    (byteAt e_i EI_OSABI = 10 → print_osabi e_i = " OS/ABI: UNIX - TRU64\n") ∧
    (byteAt e_i EI_OSABI = 97 → print_osabi e_i = " OS/ABI: ARM\n") ∧
    (byteAt e_i EI_OSABI = 255 → print_osabi e_i = " OS/ABI: Standalone App\n") ∧
    (byteAt e_i EI_OSABI ∉ [0, 1, 2, 3, 6, 8, 9, 10, 97, 255] →
      ∃ X : String, IsLowerHex X (byteAt e_i EI_OSABI) ∧
        print_osabi e_i = " OS/ABI: <unknown: " ++ X ++ ">\n") := by
  refine ⟨?_, ?_, ?_, ?_, ?_, ?_, ?_, ?_, ?_, ?_, ?_⟩
  case refine_11 =>
    intro h
    refine ⟨fmt_x (byteAt e_i EI_OSABI), isLowerHex_fmt_x _, ?_⟩
    simp only [List.mem_cons, List.mem_singleton, not_or, List.not_mem_nil, or_false] at h
    obtain ⟨h0, h1, h2, h3, h6, h8, h9, h10, h97, h255⟩ := h
    simp only [print_osabi, ELFOSABI_NONE, ELFOSABI_HPUX, ELFOSABI_NETBSD, ELFOSABI_LINUX,
      ELFOSABI_SOLARIS, ELFOSABI_IRIX, ELFOSABI_FREEBSD, ELFOSABI_TRU64, ELFOSABI_ARM,
      ELFOSABI_STANDALONE, h0, h1, h2, h3, h6, h8, h9, h10, h97, h255, if_false]
    rw [unknown_line]; rfl
  all_goals
    intro h
    simp [print_osabi, ELFOSABI_NONE, ELFOSABI_HPUX, ELFOSABI_NETBSD, ELFOSABI_LINUX,
      ELFOSABI_SOLARIS, ELFOSABI_IRIX, ELFOSABI_FREEBSD, ELFOSABI_TRU64, ELFOSABI_ARM,
      ELFOSABI_STANDALONE, h]

/-- C10, at the bytes 3 and 200. -/
theorem print_osabi_table_witness :
    print_osabi [127, 69, 76, 70, 2, 1, 1, 3] = " OS/ABI: UNIX - Linux\n" ∧
    print_osabi [127, 69, 76, 70, 2, 1, 1, 200] = " OS/ABI: <unknown: c8>\n" :=
  ⟨(print_osabi_table [127, 69, 76, 70, 2, 1, 1, 3]).2.2.2.1 (by decide),
    Exists.elim
      ((print_osabi_table [127, 69, 76, 70, 2, 1, 1, 200]).2.2.2.2.2.2.2.2.2.2 (by decide))
      (fun X hX => by rw [hX.2, isLowerHex_unique X _ hX.1]; decide)⟩

/-! ## Lemmas on decimal numerals -/

theorem decCharVal_digitChar (d : Nat) (h : d < 10) : decCharVal (Nat.digitChar d) = some d := by
  interval_cases d <;> rfl

theorem parseDec_snoc (cs : List Char) (c : Char) :
    parseDec (cs ++ [c]) =
      (parseDec cs).bind (fun a => (decCharVal c).map (fun d => 10 * a + d)) := by
  simp [parseDec, List.foldl_append]

theorem parseDec_digits (n : Nat) : parseDec (digits 10 n) = some n := by
  induction n using Nat.strong_induction_on with
  | _ n ih =>
    by_cases h : n < 10
    · rw [digits_of_lt 10 n h]
      simp [parseDec, decCharVal_digitChar n h]
    · rw [digits_of_ge 10 n (by omega) (by omega), parseDec_snoc,
        ih (n / 10) (by omega), decCharVal_digitChar (n % 10) (Nat.mod_lt _ (by omega))]
      simp
      omega

theorem decimal_head (n : Nat) (h0 : n ≠ 0) : (digits 10 n).head? ≠ some '0' := by
  induction n using Nat.strong_induction_on with
  | _ n ih =>
    by_cases h : n < 10
    · rw [digits_of_lt 10 n h]
      simpa using digitChar_ne_zero n h0 (by omega)
    · rw [digits_of_ge 10 n (by omega) (by omega)]
      have hne := digits_ne_nil 10 (n / 10) (by omega)
      have := ih (n / 10) (by omega) (by omega)
      cases hd : digits 10 (n / 10) with
      | nil => exact absurd hd hne
      | cons c cs => rw [hd] at this; simpa using this

theorem isDecimal_fmt_d (n : Nat) : IsDecimal (fmt_d n) n := by
  refine ⟨digits_ne_nil 10 n (by omega), parseDec_digits n, ?_⟩
  intro hh
  by_cases h0 : n = 0
  · subst h0; rfl
  · exact absurd hh (decimal_head n h0)

theorem decCharVal_eq_some (c : Char) (d : Nat) (h : decCharVal c = some d) :
    d < 10 ∧ c = Nat.digitChar d := by
  have hc : Char.ofNat c.toNat = c := Char.ofNat_toNat c
  unfold decCharVal at h
  generalize c.toNat = k at hc h
  subst hc
  by_cases h1 : 48 ≤ k ∧ k ≤ 57
  · rw [if_pos h1] at h
    obtain ⟨ha, hb⟩ := h1
    have hd : d = k - 48 := (Option.some.inj h).symm
    subst hd
    interval_cases k <;> exact ⟨by omega, by decide⟩
  · rw [if_neg h1] at h
    exact Option.noConfusion h

theorem parseDec_snoc_eq_some (cs : List Char) (c : Char) (n : Nat)
    (h : parseDec (cs ++ [c]) = some n) :
    ∃ a d, parseDec cs = some a ∧ d < 10 ∧ c = Nat.digitChar d ∧ n = 10 * a + d := by
  rw [parseDec_snoc] at h
  cases ha : parseDec cs with
  | none => rw [ha] at h; exact Option.noConfusion h
  | some a =>
    rw [ha] at h
    simp only [Option.some_bind] at h
    cases hd : decCharVal c with
    | none => rw [hd] at h; exact Option.noConfusion h
    | some d =>
      rw [hd] at h
      obtain ⟨hlt, hc⟩ := decCharVal_eq_some c d hd
      exact ⟨a, d, rfl, hlt, hc, (Option.some.inj h).symm⟩

theorem decimal_zero : digits 10 0 = ['0'] := by decide

theorem isDecimal_unique_aux (cs : List Char) :
    ∀ n, cs ≠ [] → parseDec cs = some n → (cs.head? = some '0' → cs = ['0']) →
      cs = digits 10 n := by
  induction cs using List.reverseRecOn with
  | nil => intro n h; exact absurd rfl h
  | append_singleton init c ih =>
    intro n _ hparse hhead
    obtain ⟨a, d, ha, hd, hc, hn⟩ := parseDec_snoc_eq_some init c n hparse
    subst hc hn
    cases hinit : init with
    | nil =>
      subst hinit
      have : a = 0 := by simpa [parseDec] using ha.symm
      subst this
      simp [digits_of_lt 10 d hd]
    | cons x xs =>
      have hne : init ≠ [] := by rw [hinit]; simp
      have hx : x ≠ '0' := by
        intro hx0
        have := hhead (by rw [hinit, hx0]; rfl)
        rw [hinit] at this
        simp at this
      have hinit_eq : init = digits 10 a :=
        ih a hne ha (by
          intro h0
          rw [hinit] at h0
          simp at h0
          exact absurd h0 hx)
      have ha0 : a ≠ 0 := by
        intro h0
        rw [h0, decimal_zero, hinit] at hinit_eq
        simp at hinit_eq
        exact hx hinit_eq.1
      rw [← hinit, digits_of_ge 10 (10 * a + d) (by omega) (by omega)]
      have e1 : (10 * a + d) / 10 = a := by omega
      have e2 : (10 * a + d) % 10 = d := by omega
      rw [e1, e2, ← hinit_eq]

/-- The numeral described by `IsDecimal` is the one `%d` prints. -/
theorem isDecimal_unique (s : String) (n : Nat) (h : IsDecimal s n) : s = fmt_d n := by
  obtain ⟨h1, h2, h3⟩ := h
  have := isDecimal_unique_aux s.data n h1 h2 h3
  unfold fmt_d
  rw [← this]

/-! ## Claims on the identification fields -/

/-- C11: `print_data` prints ` Data: ` followed by `none`, `2's complement, little
endian` or `2's complement, big endian` for the data-encoding bytes 0, 1 and 2, and for
every other data-encoding byte `<unknown: X>` where `X` is the lowercase hexadecimal
numeral of the class byte (byte 4), not of the data-encoding byte (byte 5). -/
theorem print_data_table (e_i : List Nat) :
    (byteAt e_i 5 = 0 → print_data e_i = " Data: none\n") ∧
    (byteAt e_i 5 = 1 → print_data e_i = " Data: 2's complement, little endian\n") ∧
    (byteAt e_i 5 = 2 → print_data e_i = " Data: 2's complement, big endian\n") ∧
    (2 < byteAt e_i 5 → ∃ X : String, IsLowerHex X (byteAt e_i 4) ∧
      print_data e_i = " Data: <unknown: " ++ X ++ ">\n") := by
  refine ⟨?_, ?_, ?_, ?_⟩
  · intro h; simp [print_data, EI_DATA, ELFDATANONE, h]
  · intro h; simp [print_data, EI_DATA, ELFDATANONE, ELFDATA2LSB, h]
  · intro h; simp [print_data, EI_DATA, ELFDATANONE, ELFDATA2LSB, ELFDATA2MSB, h]
  · intro h
    refine ⟨fmt_x (byteAt e_i 4), isLowerHex_fmt_x _, ?_⟩
    have h0 : byteAt e_i 5 ≠ 0 := by omega
    have h1 : byteAt e_i 5 ≠ 1 := by omega
    have h2 : byteAt e_i 5 ≠ 2 := by omega
    simp only [print_data, EI_DATA, EI_CLASS, ELFDATANONE, ELFDATA2LSB, ELFDATA2MSB, h0, h1,
      h2, if_false]
    rw [unknown_line]; rfl

/-- C11, at class byte 2 with the data-encoding bytes 1 and 7: the fallback shows the
class byte `2`, not the data-encoding byte `7`. -/
theorem print_data_table_witness :
    print_data (identOf 2 1) = " Data: 2's complement, little endian\n" ∧
    print_data (identOf 2 7) = " Data: <unknown: 2>\n" :=
  ⟨(print_data_table (identOf 2 1)).2.1 (by decide),
    Exists.elim ((print_data_table (identOf 2 7)).2.2.2 (by decide))
      (fun X hX => by rw [hX.2, isLowerHex_unique X _ hX.1]; decide)⟩

/-- C12: `print_class` prints ` Class: ` followed by `none`, `ELF32` or `ELF64` for the
class bytes 0, 1 and 2, and for every other class byte `<unknown: X>` where `X` is its
lowercase unpadded hexadecimal numeral. -/
theorem print_class_table (e_i : List Nat) :
    (byteAt e_i 4 = 0 → print_class e_i = " Class: none\n") ∧
    (byteAt e_i 4 = 1 → print_class e_i = " Class: ELF32\n") ∧
    (byteAt e_i 4 = 2 → print_class e_i = " Class: ELF64\n") ∧
    (2 < byteAt e_i 4 → ∃ X : String, IsLowerHex X (byteAt e_i 4) ∧
      print_class e_i = " Class: <unknown: " ++ X ++ ">\n") := by
  refine ⟨?_, ?_, ?_, ?_⟩
  · intro h; simp [print_class, EI_CLASS, ELFCLASSNONE, h]
  · intro h; simp [print_class, EI_CLASS, ELFCLASSNONE, ELFCLASS32, h]
  · intro h; simp [print_class, EI_CLASS, ELFCLASSNONE, ELFCLASS32, ELFCLASS64, h]
  · intro h
    refine ⟨fmt_x (byteAt e_i 4), isLowerHex_fmt_x _, ?_⟩
    have h0 : byteAt e_i 4 ≠ 0 := by omega
    have h1 : byteAt e_i 4 ≠ 1 := by omega
    have h2 : byteAt e_i 4 ≠ 2 := by omega
    simp only [print_class, EI_CLASS, ELFCLASSNONE, ELFCLASS32, ELFCLASS64, h0, h1, h2,
      if_false]
    rw [unknown_line]; rfl

/-- C12, at the class bytes 2 and 255. -/
theorem print_class_table_witness :
    print_class (identOf 2 1) = " Class: ELF64\n" ∧
    print_class (identOf 255 1) = " Class: <unknown: ff>\n" :=
  ⟨(print_class_table (identOf 2 1)).2.2.1 (by decide),
    Exists.elim ((print_class_table (identOf 255 1)).2.2.2 (by decide))
      (fun X hX => by rw [hX.2, isLowerHex_unique X _ hX.1]; decide)⟩

/-- C13: `print_version` prints ` Version: `, the decimal numeral of the version byte,
then ` (current)` exactly when the byte is 1, then a newline. -/
theorem print_version_line (e_i : List Nat) :
    (byteAt e_i 6 = 1 → print_version e_i = " Version: 1 (current)\n") ∧
    (byteAt e_i 6 ≠ 1 → ∃ D : String, IsDecimal D (byteAt e_i 6) ∧
      print_version e_i = " Version: " ++ D ++ "\n") := by
  refine ⟨?_, ?_⟩
  · intro h
    simp only [print_version, EI_VERSION, EV_CURRENT, h, if_true]
    decide
  · intro h
    refine ⟨fmt_d (byteAt e_i 6), isDecimal_fmt_d _, ?_⟩
    simp only [print_version, EI_VERSION, EV_CURRENT, h, if_false]

/-- C13, at the version bytes 1 and 0. -/
theorem print_version_line_witness :
    print_version (identOf 2 1) = " Version: 1 (current)\n" ∧
    print_version [127, 69, 76, 70, 2, 1, 0] = " Version: 0\n" :=
  ⟨(print_version_line (identOf 2 1)).1 (by decide),
    Exists.elim ((print_version_line [127, 69, 76, 70, 2, 1, 0]).2 (by decide))
      (fun D hD => by rw [hD.2, isDecimal_unique D _ hD.1]; decide)⟩

/-- C14: `print_abi` prints ` ABI Version: `, the decimal numeral of byte 8 of the
identification sequence, and a newline, whatever the byte is. -/
theorem print_abi_line (e_i : List Nat) :
    ∃ D : String, IsDecimal D (byteAt e_i 8) ∧
      print_abi e_i = " ABI Version: " ++ D ++ "\n" :=
  ⟨fmt_d (byteAt e_i 8), isDecimal_fmt_d _, rfl⟩

/-! ## Byte order of the entry point -/

theorem testBit_mask_hi (i : Nat) :
    Nat.testBit 0xFF00FF00 i = decide ((8 ≤ i ∧ i < 16) ∨ (24 ≤ i ∧ i < 32)) := by
  by_cases h : i < 32
  · interval_cases i <;> rfl
  · rw [Nat.testBit_eq_false_of_lt (lt_of_lt_of_le (by norm_num)
      (Nat.pow_le_pow_right (by omega) (Nat.le_of_not_lt h)))]
    symm; simp; omega

theorem testBit_mask_lo (i : Nat) :
    Nat.testBit 0xFF00FF i = decide (i < 8 ∨ (16 ≤ i ∧ i < 24)) := by
  by_cases h : i < 32
  · interval_cases i <;> rfl
  · rw [Nat.testBit_eq_false_of_lt (lt_of_lt_of_le (by norm_num)
      (Nat.pow_le_pow_right (by omega) (Nat.le_of_not_lt h)))]
    symm; simp; omega

theorem bswap32_eq (y : Nat) :
    bswap32 y = (y >>> 24) % 2 ^ 8 + 2 ^ 8 * ((y >>> 16) % 2 ^ 8
      + 2 ^ 8 * ((y >>> 8) % 2 ^ 8 + 2 ^ 8 * (y % 2 ^ 8))) := by
  simp only [bswap32, encode_be, encode_le, le_value, List.reverse_cons, List.reverse_nil,
    List.nil_append, List.cons_append, Nat.shiftRight_eq_div_pow, Nat.div_div_eq_div_mul]
  norm_num

theorem testBit_split (b r i : Nat) (hb : b < 2 ^ 8) :
    (b + 2 ^ 8 * r).testBit i = if i < 8 then b.testBit i else r.testBit (i - 8) := by
  rw [Nat.add_comm]
  exact Nat.testBit_mul_pow_two_add r hb i

theorem testBit_byte (y k i : Nat) :
    ((y >>> k) % 2 ^ 8).testBit i = (decide (i < 8) && y.testBit (k + i)) := by
  rw [Nat.testBit_mod_two_pow, Nat.testBit_shiftRight]

theorem byte_lt (y : Nat) : y % 2 ^ 8 < 2 ^ 8 := Nat.mod_lt _ (by norm_num)

theorem testBit_bswap32 (y i : Nat) (hi : i < 32) :
    (bswap32 y).testBit i = y.testBit (24 - 8 * (i / 8) + i % 8) := by
  rw [bswap32_eq, testBit_split _ _ _ (byte_lt _), testBit_byte]
  by_cases h1 : i < 8
  · have : 24 - 8 * (i / 8) + i % 8 = 24 + i := by omega
    simp [h1, this]
  · rw [if_neg h1, testBit_split _ _ _ (byte_lt _), testBit_byte]
    by_cases h2 : i - 8 < 8
    · have : 24 - 8 * (i / 8) + i % 8 = 16 + (i - 8) := by omega
      simp [h2, this]
    · rw [if_neg h2, testBit_split _ _ _ (byte_lt _), testBit_byte]
      by_cases h3 : i - 8 - 8 < 8
      · have : 24 - 8 * (i / 8) + i % 8 = 8 + (i - 8 - 8) := by omega
        simp [h3, this]
      · rw [if_neg h3, Nat.testBit_mod_two_pow]
        have : 24 - 8 * (i / 8) + i % 8 = i - 8 - 8 - 8 := by omega
        have h4 : i - 8 - 8 - 8 < 8 := by omega
        simp [h4, this]

theorem bswap32_lt (y : Nat) : bswap32 y < 2 ^ 32 := by
  rw [bswap32_eq]
  have h0 := byte_lt (y >>> 24)
  have h1 := byte_lt (y >>> 16)
  have h2 := byte_lt (y >>> 8)
  have h3 := byte_lt y
  omega

theorem testBit_swap (e i : Nat) (hi : i < 32) :
    (swap_halves (swap_lanes e)).testBit i = e.testBit (24 - 8 * (i / 8) + i % 8) := by
  simp only [swap_halves, swap_lanes, Nat.testBit_or, Nat.testBit_and, Nat.testBit_mod_two_pow,
    Nat.testBit_shiftLeft, Nat.testBit_shiftRight, testBit_mask_hi, testBit_mask_lo]
  interval_cases i <;> simp

theorem swap_low32 (e : Nat) : swap_halves (swap_lanes e) % 2 ^ 32 = bswap32 (e % 2 ^ 32) := by
  apply Nat.eq_of_testBit_eq
  intro i
  by_cases hi : i < 32
  · rw [Nat.testBit_mod_two_pow, testBit_swap e i hi, testBit_bswap32 _ i hi,
      Nat.testBit_mod_two_pow]
    have : 24 - 8 * (i / 8) + i % 8 < 32 := by omega
    simp [hi, this]
  · rw [Nat.testBit_mod_two_pow, Nat.testBit_eq_false_of_lt (lt_of_lt_of_le (bswap32_lt _)
      (Nat.pow_le_pow_right (by omega) (Nat.le_of_not_lt hi)))]
    simp [hi]

/-- C15: the big-endian normalization of `print_entry` (swap of the bytes inside each
16-bit lane with the masks `0xFF00FF00` / `0x00FF00FF`, then exchange of the 16-bit halves
by shifts of 16) yields a value whose low 32 bits are the byte-order reversal of the low
32 bits of the stored entry; for class 32-bit and big-endian data the value printed is
`bswap32 (e % 2 ^ 32)`. -/
theorem print_entry_big_endian_swap32 (e : Nat) (e_i : List Nat) :
    swap_halves (swap_lanes e) % 2 ^ 32 = bswap32 (e % 2 ^ 32) ∧
    (byteAt e_i EI_CLASS = ELFCLASS32 → byteAt e_i EI_DATA = ELFDATA2MSB →
      print_entry e e_i
        = " Entry point address: " ++ fmt_hash_x (bswap32 (e % 2 ^ 32)) ++ "\n") := by
  refine ⟨swap_low32 e, ?_⟩
  intro hclass hdata
  simp only [print_entry, entry_value, hclass, hdata, if_true, swap_low32, String.append_assoc]

/-- C15, at the stored value `0x78004000` (bytes `00 40 00 78`, the big-endian encoding
of `0x400078`) with bits set above the low 32. -/
theorem print_entry_big_endian_swap32_witness :
    bswap32 0x78004000 = 0x400078 ∧
    print_entry 0xabcd78004000 (identOf ELFCLASS32 ELFDATA2MSB)
      = " Entry point address: 0x400078\n" :=
  ⟨by decide,
    ((print_entry_big_endian_swap32 0xabcd78004000 (identOf ELFCLASS32 ELFDATA2MSB)).2
      (by decide) (by decide)).trans (by decide)⟩

/-! ## Executions of `main` -/

/-- The only diagnostic of `check_elf`. -/
theorem check_elf_loop_cases (e_i : List Nat) :
    ∀ k index, check_elf_loop e_i k index = .ok () ∨
      check_elf_loop e_i k index = .error ⟨"Error: Not an ELF file\n", 98⟩ := by
  intro k
  induction k with
  | zero => intro index; exact Or.inl rfl
  | succ k ih =>
    intro index
    simp only [check_elf_loop]
    split_ifs
    · exact Or.inr rfl
    · exact ih (index + 1)

theorem check_elf_cases (e_i : List Nat) :
    check_elf e_i = .ok () ∨ check_elf e_i = .error ⟨"Error: Not an ELF file\n", 98⟩ :=
  check_elf_loop_cases e_i 4 0

theorem check_elf_loop_ok_iff (e_i : List Nat) :
    ∀ k index, check_elf_loop e_i k index = .ok () ↔
      ∀ i, index ≤ i → i < index + k → byteAt e_i i ∈ [127, 69, 76, 70] := by
  intro k
  induction k with
  | zero =>
    intro index
    simp only [check_elf_loop, true_iff]
    intro i h1 h2
    omega
  | succ k ih =>
    intro index
    simp only [check_elf_loop]
    by_cases hb : byteAt e_i index ≠ 127 ∧ byteAt e_i index ≠ 69 ∧
        byteAt e_i index ≠ 76 ∧ byteAt e_i index ≠ 70
    · rw [if_pos hb]
      constructor
      · intro h; exact Except.noConfusion h
      · intro h
        have := h index (le_refl _) (by omega)
        simp only [List.mem_cons, List.mem_singleton, List.not_mem_nil, or_false] at this
        obtain ⟨h1, h2, h3, h4⟩ := hb
        rcases this with h | h | h | h <;> contradiction
    · rw [if_neg hb, ih (index + 1)]
      have hmem : byteAt e_i index ∈ [127, 69, 76, 70] := by
        simp only [List.mem_cons, List.mem_singleton, List.not_mem_nil, or_false]
        by_contra hne
        apply hb
        simp only [not_or] at hne
        exact hne
      constructor
      · intro h i h1 h2
        by_cases hi : i = index
        · subst hi; exact hmem
        · exact h i (by omega) (by omega)
      · intro h i h1 h2
        exact h i (by omega) (by omega)

theorem byteAt_e_ident (buf : List Nat) (i : Nat) (h : i < 16) :
    byteAt (e_ident buf) i = byteAt buf i := by
  simp [byteAt, e_ident, EI_NIDENT, List.getD_eq_getElem?_getD, List.getElem?_take, h]

theorem main_open_failed (w : World) (h : w.openFd = none) :
    main w = ⟨"", "Error: Can't read file " ++ w.path ++ "\n", 98,
      [.openFailed, .exited 98]⟩ := by
  simp [main, h]

theorem main_alloc_failed (w : World) (o : Nat) (h : w.openFd = some o)
    (hm : w.mallocOk = false) :
    main w = ⟨"", if w.closeOk then "Error: Can't read file " ++ w.path ++ "\n"
        else "Error: Can't close fd " ++ fmt_d o ++ "\n", 98,
      [.opened o, .allocFailed, closeAction o w.closeOk, .exited 98]⟩ := by
  cases hc : w.closeOk <;> simp [main, h, hm, hc, close_elf]

theorem main_read_failed (w : World) (o : Nat) (h : w.openFd = some o)
    (hm : w.mallocOk = true) (hr : w.readBytes = none) :
    main w = ⟨"", if w.closeOk then "Error: `" ++ w.path ++ "`: No such file\n"
        else "Error: Can't close fd " ++ fmt_d o ++ "\n", 98,
      [.opened o, .allocated, .readFailed, .freed, closeAction o w.closeOk, .exited 98]⟩ := by
  cases hc : w.closeOk <;> simp [main, h, hm, hr, hc, close_elf]

theorem main_bad_magic (w : World) (o : Nat) (bytes : List Nat) (h : w.openFd = some o)
    (hm : w.mallocOk = true) (hr : w.readBytes = some bytes)
    (hk : check_elf (e_ident (bufferAfterRead w.heap bytes)) ≠ .ok ()) :
    main w = ⟨"", "Error: Not an ELF file\n", 98,
      [.opened o, .allocated, .readDone bytes.length, .exited 98]⟩ := by
  rcases check_elf_cases (e_ident (bufferAfterRead w.heap bytes)) with hc | hc
  · exact absurd hc hk
  · simp [main, h, hm, hr, hc]

theorem main_reported (w : World) (o : Nat) (bytes : List Nat) (h : w.openFd = some o)
    (hm : w.mallocOk = true) (hr : w.readBytes = some bytes)
    (hk : check_elf (e_ident (bufferAfterRead w.heap bytes)) = .ok ()) :
    main w = ⟨report (bufferAfterRead w.heap bytes),
      if w.closeOk then "" else "Error: Can't close fd " ++ fmt_d o ++ "\n",
      if w.closeOk then 0 else 98,
      [.opened o, .allocated, .readDone bytes.length, .freed, closeAction o w.closeOk,
        if w.closeOk then .returned 0 else .exited 98]⟩ := by
  cases hc : w.closeOk <;> simp [main, h, hm, hr, hk, hc, close_elf]

theorem isLine_cant_read (path : String) (hp : newlines path = 0) :
    IsLine ("Error: Can't read file " ++ path ++ "\n") :=
  isLine_append_left _ _ (by rw [newlines_append, hp]; rfl) (by decide)

theorem isLine_cant_close (o : Nat) : IsLine ("Error: Can't close fd " ++ fmt_d o ++ "\n") :=
  isLine_append_left _ _ (by rw [newlines_append, newlines_fmt_d]; rfl) (by decide)

theorem isLine_no_such_file (path : String) (hp : newlines path = 0) :
    IsLine ("Error: `" ++ path ++ "`: No such file\n") :=
  isLine_append_left _ _ (by rw [newlines_append, hp]; rfl) (by decide)

/-! ## Claims on `main` -/

set_option maxRecDepth 100000 in
/-- C16: a read that returns fewer than 64 bytes should end in a diagnostic, a non-zero
status and no report, but `main` compares the result of `read` with `-1` only: on a
16-byte file it returns 0, writes nothing to the error stream and prints a report whose
Type and Entry lines come from the bytes the allocation held before the read (zeros in
the first run, `0xff` in the second). -/
theorem main_short_read_reported :
    (identOf ELFCLASS64 ELFDATA2LSB).length < EHDR_SIZE ∧
    (main (shortReadWorld (List.replicate 64 0))).status = 0 ∧
    (main (shortReadWorld (List.replicate 64 0))).err = "" ∧
    (main (shortReadWorld (List.replicate 64 0))).out =
      "ELF Header:\n Magic: 7f 45 4c 46 02 01 01 00 00 00 00 00 00 00 00 00\n" ++
      " Class: ELF64\n Data: 2's complement, little endian\n Version: 1 (current)\n" ++
      " OS/ABI: UNIX - System V\n ABI Version: 0\n Type: NONE (None)\n" ++
      " Entry point address: 0\n" ∧
    (main (shortReadWorld (List.replicate 64 255))).status = 0 ∧
    (main (shortReadWorld (List.replicate 64 255))).out =
      "ELF Header:\n Magic: 7f 45 4c 46 02 01 01 00 00 00 00 00 00 00 00 00\n" ++
      " Class: ELF64\n Data: 2's complement, little endian\n Version: 1 (current)\n" ++
      " OS/ABI: UNIX - System V\n ABI Version: 0\n Type: <unknown: ffff>\n" ++
      " Entry point address: 0xffffffffffffffff\n" := by
  decide

/-- C17: the descriptor should be closed on every exit path after a successful `open`,
but when `check_elf` refuses the magic the process exits inside `check_elf`, before
`free` and `close_elf`: on a file of 64 zero bytes the run is open, allocate, read, exit
98, with no call of `close_elf`, whereas the path of a failed `read` does call it. -/
theorem main_bad_magic_leaves_descriptor_open :
    (main badMagicWorld).trace
      = [Action.opened 3, Action.allocated, Action.readDone 64, Action.exited 98] ∧
    (main badMagicWorld).err = "Error: Not an ELF file\n" ∧
    ¬ CloseInvoked 3 (main badMagicWorld) ∧
    CloseInvoked 3 (main readErrorWorld) := by
  decide

/-- Outcome of `main` path by path, with `check_elf` taken at its own verdict: the
status is 0 or 98; it is 0 only when `open`, `malloc`, `read`, `check_elf` and `close`
all succeeded, the report was written and the descriptor closed; every other path ends
with 98 and one diagnostic, a single line when the path argument has no newline. -/
theorem main_outcome_by_path (w : World) :
    ((main w).status = 0 ∨ (main w).status = 98) ∧
    ((main w).status = 0 → ∃ o bytes, w.openFd = some o ∧ w.mallocOk = true ∧
      w.readBytes = some bytes ∧ w.closeOk = true ∧
      (main w).out = report (bufferAfterRead w.heap bytes) ∧ (main w).err = "" ∧
      Action.closed o ∈ (main w).trace) ∧
    (w.openFd = none →
      (main w).status = 98 ∧ (main w).out = "" ∧
      (main w).err = "Error: Can't read file " ++ w.path ++ "\n") ∧
    (∀ o, w.openFd = some o → w.mallocOk = false →
      (main w).status = 98 ∧ (main w).out = "" ∧
      ((main w).err = "Error: Can't read file " ++ w.path ++ "\n" ∨
        (main w).err = "Error: Can't close fd " ++ fmt_d o ++ "\n")) ∧
    (∀ o, w.openFd = some o → w.mallocOk = true → w.readBytes = none →
      (main w).status = 98 ∧ (main w).out = "" ∧
      ((main w).err = "Error: `" ++ w.path ++ "`: No such file\n" ∨
        (main w).err = "Error: Can't close fd " ++ fmt_d o ++ "\n")) ∧
    (∀ o bytes, w.openFd = some o → w.mallocOk = true → w.readBytes = some bytes →
      check_elf (e_ident (bufferAfterRead w.heap bytes)) ≠ .ok () →
      (main w).status = 98 ∧ (main w).out = "" ∧
      (main w).err = "Error: Not an ELF file\n") ∧
    (∀ o bytes, w.openFd = some o → w.mallocOk = true → w.readBytes = some bytes →
      check_elf (e_ident (bufferAfterRead w.heap bytes)) = .ok () → w.closeOk = false →
      (main w).status = 98 ∧ (main w).out = report (bufferAfterRead w.heap bytes) ∧
      (main w).err = "Error: Can't close fd " ++ fmt_d o ++ "\n") ∧
    ((main w).status = 98 → newlines w.path = 0 → IsLine (main w).err) := by
  have hopen : w.openFd = none →
      (main w).status = 98 ∧ (main w).out = "" ∧
      (main w).err = "Error: Can't read file " ++ w.path ++ "\n" := by
    intro h; rw [main_open_failed w h]; exact ⟨rfl, rfl, rfl⟩
  have halloc : ∀ o, w.openFd = some o → w.mallocOk = false →
      (main w).status = 98 ∧ (main w).out = "" ∧
      ((main w).err = "Error: Can't read file " ++ w.path ++ "\n" ∨
        (main w).err = "Error: Can't close fd " ++ fmt_d o ++ "\n") := by
    intro o h hm
    rw [main_alloc_failed w o h hm]
    refine ⟨rfl, rfl, ?_⟩
    cases w.closeOk
    · exact Or.inr rfl
    · exact Or.inl rfl
  have hread : ∀ o, w.openFd = some o → w.mallocOk = true → w.readBytes = none →
      (main w).status = 98 ∧ (main w).out = "" ∧
      ((main w).err = "Error: `" ++ w.path ++ "`: No such file\n" ∨
        (main w).err = "Error: Can't close fd " ++ fmt_d o ++ "\n") := by
    intro o h hm hr
    rw [main_read_failed w o h hm hr]
    refine ⟨rfl, rfl, ?_⟩
    cases w.closeOk
    · exact Or.inr rfl
    · exact Or.inl rfl
  have hmagic : ∀ o bytes, w.openFd = some o → w.mallocOk = true →
      w.readBytes = some bytes →
      check_elf (e_ident (bufferAfterRead w.heap bytes)) ≠ .ok () →
      (main w).status = 98 ∧ (main w).out = "" ∧
      (main w).err = "Error: Not an ELF file\n" := by
    intro o bytes h hm hr hk
    rw [main_bad_magic w o bytes h hm hr hk]
    exact ⟨rfl, rfl, rfl⟩
  have hclose : ∀ o bytes, w.openFd = some o → w.mallocOk = true →
      w.readBytes = some bytes →
      check_elf (e_ident (bufferAfterRead w.heap bytes)) = .ok () → w.closeOk = false →
      (main w).status = 98 ∧ (main w).out = report (bufferAfterRead w.heap bytes) ∧
      (main w).err = "Error: Can't close fd " ++ fmt_d o ++ "\n" := by
    intro o bytes h hm hr hk hc
    rw [main_reported w o bytes h hm hr hk, hc]
    exact ⟨rfl, rfl, rfl⟩
  have hgood : ∀ o bytes, w.openFd = some o → w.mallocOk = true →
      w.readBytes = some bytes →
      check_elf (e_ident (bufferAfterRead w.heap bytes)) = .ok () → w.closeOk = true →
      (main w).status = 0 ∧ (main w).out = report (bufferAfterRead w.heap bytes) ∧
      (main w).err = "" ∧ Action.closed o ∈ (main w).trace := by
    intro o bytes h hm hr hk hc
    rw [main_reported w o bytes h hm hr hk, hc]
    exact ⟨rfl, rfl, rfl, by simp [closeAction]⟩
  refine ⟨?_, ?_, hopen, halloc, hread, hmagic, hclose, ?_⟩
  · cases h : w.openFd with
    | none => exact Or.inr (hopen h).1
    | some o =>
      cases hm : w.mallocOk with
      | false => exact Or.inr (halloc o h hm).1
      | true =>
        cases hr : w.readBytes with
        | none => exact Or.inr (hread o h hm hr).1
        | some bytes =>
          by_cases hk : check_elf (e_ident (bufferAfterRead w.heap bytes)) = .ok ()
          · cases hc : w.closeOk with
            | false => exact Or.inr (hclose o bytes h hm hr hk hc).1
            | true => exact Or.inl (hgood o bytes h hm hr hk hc).1
          · exact Or.inr (hmagic o bytes h hm hr hk).1
  · intro hs
    cases h : w.openFd with
    | none => have := (hopen h).1; omega
    | some o =>
      cases hm : w.mallocOk with
      | false => have := (halloc o h hm).1; omega
      | true =>
        cases hr : w.readBytes with
        | none => have := (hread o h hm hr).1; omega
        | some bytes =>
          by_cases hk : check_elf (e_ident (bufferAfterRead w.heap bytes)) = .ok ()
          · cases hc : w.closeOk with
            | false => have := (hclose o bytes h hm hr hk hc).1; omega
            | true =>
              obtain ⟨_, h2, h3, h4⟩ := hgood o bytes h hm hr hk hc
              exact ⟨o, bytes, rfl, rfl, rfl, rfl, h2, h3, h4⟩
          · have := (hmagic o bytes h hm hr hk).1; omega
  · intro hs hp
    cases h : w.openFd with
    | none => rw [(hopen h).2.2]; exact isLine_cant_read _ hp
    | some o =>
      cases hm : w.mallocOk with
      | false =>
        rcases (halloc o h hm).2.2 with he | he <;> rw [he]
        · exact isLine_cant_read _ hp
        · exact isLine_cant_close o
      | true =>
        cases hr : w.readBytes with
        | none =>
          rcases (hread o h hm hr).2.2 with he | he <;> rw [he]
          · exact isLine_no_such_file _ hp
          · exact isLine_cant_close o
        | some bytes =>
          by_cases hk : check_elf (e_ident (bufferAfterRead w.heap bytes)) = .ok ()
          · cases hc : w.closeOk with
            | false => rw [(hclose o bytes h hm hr hk hc).2.2]; exact isLine_cant_close o
            | true => have := (hgood o bytes h hm hr hk hc).1; omega
          · rw [(hmagic o bytes h hm hr hk).2.2]; decide

set_option maxRecDepth 100000 in
/-- C18: on bad magic `main` should end with status 98 after one diagnostic line, but
`check_elf` accepts any four bytes taken among the magic values: on the 64-byte header
starting `L L L L`, whose first four bytes are not the magic, `main` returns 0, writes
nothing to the error stream, closes the descriptor and prints the whole report; on 64
zero bytes it does end with 98 and the diagnostic. -/
theorem main_bad_magic_returns_zero :
    llllHeader.length = 64 ∧
    llllHeader.take 4 ≠ [127, 69, 76, 70] ∧
    (main (goodWorld "a.out" 3 llllHeader)).status = 0 ∧
    (main (goodWorld "a.out" 3 llllHeader)).err = "" ∧
    ¬ IsLine (main (goodWorld "a.out" 3 llllHeader)).err ∧
    (main (goodWorld "a.out" 3 llllHeader)).trace
      = [Action.opened 3, Action.allocated, Action.readDone 64, Action.freed,
          Action.closed 3, Action.returned 0] ∧
    (main (goodWorld "a.out" 3 llllHeader)).out =
      "ELF Header:\n Magic: 4c 4c 4c 4c 02 01 01 00 00 00 00 00 00 00 00 00\n" ++
      " Class: ELF64\n Data: 2's complement, little endian\n Version: 1 (current)\n" ++
      " OS/ABI: UNIX - System V\n ABI Version: 0\n Type: EXEC (Executable file)\n" ++
      " Entry point address: 0x400078\n" ∧
    (main badMagicWorld).status = 98 ∧
    (main badMagicWorld).err = "Error: Not an ELF file\n" := by
  decide

/-- C19: `check_elf` ends in its error exactly when one of the first four bytes is
outside the set of the four magic values; a 64-byte header whose first four bytes all
belong to the set, in any order and with any repetition, is accepted silently and
reported, and `main` returns 0. -/
theorem check_elf_accepts_members (hdr : List Nat) :
    (check_elf (e_ident hdr) = .ok () ↔
      ∀ i, i < 4 → byteAt hdr i ∈ [127, 69, 76, 70]) ∧
    (check_elf (e_ident hdr) ≠ .ok () ↔
      check_elf (e_ident hdr) = .error ⟨"Error: Not an ELF file\n", 98⟩) ∧
    (∀ (path : String) (fd : Nat) (heap : List Nat), hdr.length = 64 →
      (∀ i, i < 4 → byteAt hdr i ∈ [127, 69, 76, 70]) →
      (main ⟨path, some fd, true, heap, some hdr, true⟩).out = report hdr ∧
      (main ⟨path, some fd, true, heap, some hdr, true⟩).err = "" ∧
      (main ⟨path, some fd, true, heap, some hdr, true⟩).status = 0) := by
  have hiff : check_elf (e_ident hdr) = .ok () ↔
      ∀ i, i < 4 → byteAt hdr i ∈ [127, 69, 76, 70] := by
    unfold check_elf
    rw [check_elf_loop_ok_iff]
    constructor
    · intro h i hi
      rw [← byteAt_e_ident hdr i (by omega)]
      exact h i (Nat.zero_le _) (by omega)
    · intro h i _ hi
      rw [byteAt_e_ident hdr i (by omega)]
      exact h i (by omega)
  refine ⟨hiff, ?_, ?_⟩
  · constructor
    · intro h
      rcases check_elf_cases (e_ident hdr) with hc | hc
      · exact absurd hc h
      · exact hc
    · intro h hok
      rw [hok] at h
      exact Except.noConfusion h
  · intro path fd heap hlen hmem
    have hk : check_elf (e_ident (bufferAfterRead heap hdr)) = .ok () := by
      rw [bufferAfterRead_full heap hdr hlen]; exact hiff.mpr hmem
    rw [main_reported ⟨path, some fd, true, heap, some hdr, true⟩ fd hdr rfl rfl rfl hk]
    simp only [bufferAfterRead_full heap hdr hlen, if_true, and_self]

set_option maxRecDepth 100000 in
/-- C19, on the header that starts with `F`, `L`, `E`, `0x7F`. -/
theorem check_elf_accepts_members_witness :
    (main (goodWorld "a.out" 3 flehHeader)).status = 0 ∧
    (main (goodWorld "a.out" 3 flehHeader)).err = "" ∧
    (main (goodWorld "a.out" 3 flehHeader)).out =
      "ELF Header:\n Magic: 46 4c 45 7f 02 01 01 00 00 00 00 00 00 00 00 00\n" ++
      " Class: ELF64\n Data: 2's complement, little endian\n Version: 1 (current)\n" ++
      " OS/ABI: UNIX - System V\n ABI Version: 0\n Type: EXEC (Executable file)\n" ++
      " Entry point address: 0x400078\n" :=
  have h := (check_elf_accepts_members flehHeader).2.2 "a.out" 3
    (List.replicate EHDR_SIZE 0) (by decide) (by decide)
  ⟨h.2.2, h.2.1, h.1.trans (by decide)⟩

/-- C20: when the value shown by `print_entry` (the entry after the big-endian
normalization, truncated to 32 bits for class 32-bit) is zero, the line is
` Entry point address: 0` without the prefix `0x`; for every nonzero value the number
is `0x` followed by its lowercase hexadecimal numeral. -/
theorem print_entry_zero_unprefixed (e v : Nat) (e_i : List Nat)
    (hv : v = if byteAt e_i EI_CLASS = ELFCLASS32 then entry_value e e_i % 2 ^ 32
      else entry_value e e_i) :
    (v = 0 → print_entry e e_i = " Entry point address: 0\n") ∧
    (v ≠ 0 → ∃ X : String, IsLowerHex X v ∧
      print_entry e e_i = " Entry point address: 0x" ++ X ++ "\n") := by
  have key : print_entry e e_i = " Entry point address: " ++ (fmt_hash_x v ++ "\n") := by
    rw [hv]
    unfold print_entry
    split_ifs <;> rfl
  constructor
  · intro h0
    rw [key, h0]
    decide
  · intro h0
    refine ⟨fmt_x v, isLowerHex_fmt_x v, ?_⟩
    rw [key]
    simp only [fmt_hash_x, h0, if_false]
    rw [← String.append_assoc, ← String.append_assoc]
    rfl

/-- C20, at the entry 0 of a 64-bit little-endian header and at the entry `2 ^ 32` of a
32-bit one, both shown as `0`, and at the entry `0x400078`. -/
theorem print_entry_zero_unprefixed_witness :
    print_entry 0 (identOf ELFCLASS64 ELFDATA2LSB) = " Entry point address: 0\n" ∧
    print_entry (2 ^ 32) (identOf ELFCLASS32 ELFDATA2LSB) = " Entry point address: 0\n" ∧
    print_entry 0x400078 (identOf ELFCLASS64 ELFDATA2LSB)
      = " Entry point address: 0x400078\n" :=
  ⟨(print_entry_zero_unprefixed 0 0 (identOf ELFCLASS64 ELFDATA2LSB) (by decide)).1 rfl,
    (print_entry_zero_unprefixed (2 ^ 32) 0 (identOf ELFCLASS32 ELFDATA2LSB)
      (by decide)).1 rfl,
    Exists.elim
      ((print_entry_zero_unprefixed 0x400078 0x400078 (identOf ELFCLASS64 ELFDATA2LSB)
        (by decide)).2 (by decide))
      (fun X hX => by rw [hX.2, isLowerHex_unique X _ hX.1]; decide)⟩

end ElfHeader
